import Mathlib

/-!
# Verification of the Kaisen log-collection backend core

Shallow embedding of the collection-to-alert-to-graph pipeline of the
Kaisen backend (`Backend/minip/src`): the alert engine, the attack-graph
engine, the storage manager, the remote collector and the `collect_once`
orchestrator.  Python floats are modelled as rationals (`ℚ`), Python
dictionaries as association lists, fallible external effects as explicit
behaviour records, and exceptions as `Except` values.
-/

set_option maxRecDepth 4096

namespace Kaisen

/-! ## Data models (`src/data_models.py`) -/

/-- `FeatureVector` dataclass: structured system-metric snapshot. -/
structure FeatureVector where
  cpu_usage : ℚ
  memory_usage : ℚ
  process_count : Int
  network_connections : Int
  failed_logins : Int
  timestamp : String
  node_id : String := "local"
  unique_ip_count : Int := 0
  failed_attempts_per_ip : List (String × Int) := []
  connection_count_per_ip : List (String × Int) := []
  source_ips : List String := []
  destination_ips : List String := []
deriving DecidableEq, Repr

/-- `PredictionResult` dataclass: output of the anomaly-detection model. -/
structure PredictionResult where
  anomaly_score : ℚ
  label : String
  confidence : ℚ
deriving DecidableEq, Repr

/-- `Alert` dataclass: a generated security alert. -/
structure Alert where
  alert_id : String
  node_id : String
  timestamp : String
  anomaly_score : ℚ
  suspected_reason : String
  feature_vector : FeatureVector
  severity : String
  suspicious_ips : List String := []
deriving DecidableEq, Repr

/-! ## Alert engine (`src/alert_engine.py`) -/

/-- `AlertEngine.determine_suspected_reason`: checks the six fixed metric
thresholds in order and joins the matching reasons with a comma. -/
def determine_suspected_reason (fv : FeatureVector) : String :=
  let reasons : List String :=
    (if fv.cpu_usage > 80 then ["high CPU usage"] else []) ++
    (if fv.memory_usage > 85 then ["high memory usage"] else []) ++
    (if fv.failed_logins > 10 then ["multiple failed logins"] else []) ++
    (if fv.network_connections > 100 then ["excessive network connections"] else []) ++
    (if fv.process_count > 200 then ["high process count"] else []) ++
    (if fv.unique_ip_count > 50 then ["connections to many unique IPs"] else [])
  if reasons = [] then "anomalous pattern detected"
  else String.intercalate ", " reasons

/-- `AlertEngine.identify_suspicious_ips`: IPs with more than 5 failed
attempts, then IPs with more than 50 connections not already listed. -/
def identify_suspicious_ips (fv : FeatureVector) : List String :=
  let s1 := (fv.failed_attempts_per_ip.filter (fun p => p.2 > 5)).map (·.1)
  let s2 := fv.connection_count_per_ip.foldl
    (fun acc p => if p.2 > 50 && !(s1 ++ acc).contains p.1 then acc ++ [p.1] else acc) []
  s1 ++ s2

/-- `AlertEngine._calculate_severity`: step function of the anomaly score. -/
def calculate_severity (anomaly_score : ℚ) : String :=
  if anomaly_score ≥ 0.9 then "critical"
  else if anomaly_score ≥ 0.8 then "high"
  else if anomaly_score ≥ 0.7 then "medium"
  else "low"

/-- External / fallible effects used by `AlertEngine.process_prediction`:
each derived alert field is computed inside its own `try`/`except`, so for
each one the behaviour records whether the derivation raises (and the
values returned by the system clock / uuid library). -/
structure DeriveBehaviour where
  uuid4 : Option String
  epochTime : Int
  utcnowIso : Option String
  nowIso : String
  reasonRaises : Bool
  severityRaises : Bool
  ipsRaises : Bool

/-- `AlertEngine.process_prediction`: returns `none` when the score does not
strictly exceed the threshold; otherwise builds the alert, substituting the
documented fallback for any derived field whose derivation raised. -/
def process_prediction (threshold : ℚ) (b : DeriveBehaviour) (node_id : String)
    (prediction : PredictionResult) (fv : FeatureVector) : Option Alert :=
  if prediction.anomaly_score ≤ threshold then
    none
  else
    let alert_id := match b.uuid4 with
      | some u => u
      | none => "alert-" ++ toString b.epochTime
    let timestamp := match b.utcnowIso with
      | some t => t ++ "Z"
      | none => b.nowIso ++ "Z"
    let suspected_reason :=
      if b.reasonRaises then "anomalous pattern detected"
      else determine_suspected_reason fv
    let severity :=
      if b.severityRaises then "medium"
      else calculate_severity prediction.anomaly_score
    let suspicious_ips :=
      if b.ipsRaises then [] else identify_suspicious_ips fv
    some { alert_id := alert_id, node_id := node_id, timestamp := timestamp,
           anomaly_score := prediction.anomaly_score,
           suspected_reason := suspected_reason, feature_vector := fv,
           severity := severity, suspicious_ips := suspicious_ips }

end Kaisen

namespace Kaisen

/-- A sample feature vector used for concrete evaluations. -/
def fvSample : FeatureVector :=
  { cpu_usage := 45, memory_usage := 62, process_count := 156,
    network_connections := 42, failed_logins := 0,
    timestamp := "2024-01-01T00:00:00Z", node_id := "local" }

/-- A sample derivation behaviour where nothing raises. -/
def dbSample : DeriveBehaviour :=
  { uuid4 := some "uuid-1", epochTime := 1700000000,
    utcnowIso := some "2024-01-01T00:00:00", nowIso := "2024-01-01T00:00:00",
    reasonRaises := false, severityRaises := false, ipsRaises := false }

end Kaisen

namespace Kaisen

/-! ## Storage manager (`src/storage_manager.py`)

The backing file of each collection is modelled by its parse status: absent,
present but not parseable as JSON (`json.load` raises `JSONDecodeError`), or
parsed into a JSON document whose top level is either an array of records of
type `α` or some non-array JSON value. -/

/-- A top-level JSON value that is not an array. -/
inductive NonArrayJson where
  | jobj
  | jstr (s : String)
  | jnum (q : ℚ)
  | jbool (b : Bool)
  | jnull
deriving DecidableEq, Repr

/-- A parsed JSON document: an array of records, or a non-array value. -/
inductive JsonDoc (α : Type) where
  | jarr (l : List α)
  | jother (v : NonArrayJson)
deriving DecidableEq, Repr

/-- State of a storage file as seen through `open` + `json.load`. -/
inductive JFile (α : Type) where
  | missing
  | unparsable
  | parsed (d : JsonDoc α)
deriving DecidableEq, Repr

/-- The `data` list obtained by the read phase of `save_log` / `save_alert`:
a missing file, a `JSONDecodeError` and a non-list document all reinitialize
`data` to the empty list; a parsed array is kept. -/
def readArrayData {α : Type} : JFile α → List α
  | .missing => []
  | .unparsable => []
  | .parsed (.jarr l) => l
  | .parsed (.jother _) => []

/-- External behaviour of the write path: whether attempt `i`'s
write-and-revalidate succeeds, and the file state a failed attempt `i`
leaves behind. -/
structure WriteBehaviour (α : Type) where
  writeOk : Nat → Bool
  failFile : Nat → JFile α

/-- Outcome of a save call: returned boolean, number of loop iterations
(underlying write attempts), the backoff sleeps performed, and the final
file state. -/
structure SaveResult (α : Type) where
  ok : Bool
  attempts : Nat
  sleeps : List ℚ
  file : JFile α
deriving DecidableEq, Repr

/-- The `for attempt in range(max_retries)` retry loop shared by
`save_log` and `save_alert`: read (reinitializing on bad content), append
the entry, write back, validate; on failure at the last attempt return
`False`, otherwise sleep `0.1 * 2 ^ attempt` seconds and retry.
`rem` counts the remaining iterations (`max_retries - attempt`). -/
def save_attempts {α : Type} (b : WriteBehaviour α) (entry : α) :
    (attempt rem : Nat) → JFile α → Nat → List ℚ → SaveResult α
  | _, 0, f, made, sleeps =>
    { ok := false, attempts := made, sleeps := sleeps, file := f }
  | attempt, rem + 1, f, made, sleeps =>
    if b.writeOk attempt then
      { ok := true, attempts := made + 1, sleeps := sleeps,
        file := .parsed (.jarr (readArrayData f ++ [entry])) }
    else if rem = 0 then
      { ok := false, attempts := made + 1, sleeps := sleeps,
        file := b.failFile attempt }
    else
      save_attempts b entry (attempt + 1) rem (b.failFile attempt) (made + 1)
        (sleeps ++ [(1 / 10) * 2 ^ attempt])

/-- `StorageManager.save_log`: converts the feature vector (returning
`False` immediately if `to_dict` raises) and runs the retry loop. -/
def save_log (b : WriteBehaviour FeatureVector) (toDictRaises : Bool)
    (fv : FeatureVector) (max_retries : Nat) (f : JFile FeatureVector) :
    SaveResult FeatureVector :=
  if toDictRaises then { ok := false, attempts := 0, sleeps := [], file := f }
  else save_attempts b fv 0 max_retries f 0 []

/-- `StorageManager.save_alert`: builds the alert dictionary (modelled by
the alert record itself) and runs the retry loop. -/
def save_alert (b : WriteBehaviour Alert) (alert : Alert) (max_retries : Nat)
    (f : JFile Alert) : SaveResult Alert :=
  save_attempts b alert 0 max_retries f 0 []

/-- `StorageManager.get_log_history`: empty list when the file is missing,
unparsable, or parses to a non-array document. -/
def get_log_history {α : Type} : JFile α → List α
  | .missing => []
  | .unparsable => []
  | .parsed (.jarr l) => l
  | .parsed (.jother _) => []

/-- `StorageManager.get_alerts`: same read logic as `get_log_history`
against the alerts file. -/
def get_alerts {α : Type} : JFile α → List α
  | .missing => []
  | .unparsable => []
  | .parsed (.jarr l) => l
  | .parsed (.jother _) => []

/-! ## Remote log collector (`src/remote_log_collector.py`) -/

/-- A Python value held in a remote-log response dictionary: a number, a
string, or any other value (`None`, lists, dicts, ...) on which numeric
coercion raises. -/
inductive PyVal where
  | pnum (q : ℚ)
  | pstr (s : String)
  | pother
deriving DecidableEq, Repr

/-- A JSON-object response body, as a Python dict (unique keys assumed). -/
abbrev RDict : Type := List (String × PyVal)

/-- Python dict lookup (`data[k]` / `k in data`). -/
def dget (d : RDict) (k : String) : Option PyVal :=
  (List.find? (fun p => p.1 = k) d).map (·.2)

/-- Python dict assignment `data[k] = v`: replace in place or append. -/
def dset (d : RDict) (k : String) (v : PyVal) : RDict :=
  if (List.find? (fun p => p.1 = k) d).isSome then
    List.map (fun p => if p.1 = k then (k, v) else p) d
  else d ++ [(k, v)]

/-- Value of a digit string. -/
def digitsToNat (cs : List Char) : Nat :=
  cs.foldl (fun n c => n * 10 + (c.toNat - 48)) 0

/-- Model of Python `float(s)` on strings: optional sign, then digits with
an optional decimal point (other accepted spellings are not produced by the
JSON bodies this collector consumes). -/
def pyParseFloat (s : String) : Option ℚ :=
  let rest := s.toList
  let sign : ℚ := if rest.head? = some '-' then -1 else 1
  let rest := if rest.head? = some '-' ∨ rest.head? = some '+' then rest.tail else rest
  match List.span (fun c => c.isDigit) rest with
  | (intPart, []) =>
    if intPart = [] then none else some (sign * digitsToNat intPart)
  | (intPart, '.' :: fracPart) =>
    if fracPart.all (fun c => c.isDigit) ∧ (intPart ≠ [] ∨ fracPart ≠ []) then
      some (sign * ((digitsToNat intPart : ℚ) +
        (digitsToNat fracPart : ℚ) / 10 ^ fracPart.length))
    else none
  | _ => none

/-- Model of Python `int(s)` on strings: optional sign then digits only. -/
def pyParseInt (s : String) : Option Int :=
  let rest := s.toList
  let sign : Int := if rest.head? = some '-' then -1 else 1
  let rest := if rest.head? = some '-' ∨ rest.head? = some '+' then rest.tail else rest
  if rest ≠ [] ∧ rest.all (fun c => c.isDigit) then
    some (sign * digitsToNat rest)
  else none

/-- Python `int()` applied to a float truncates toward zero. -/
def ratTrunc (q : ℚ) : Int :=
  if 0 ≤ q then (q.num.toNat / q.den : Nat)
  else -(((-q).num.toNat / q.den : Nat) : Int)

/-- Python `float(v)`: numbers pass through, numeric strings parse,
anything else raises (`none`). -/
def pyFloatOf : PyVal → Option ℚ
  | .pnum q => some q
  | .pstr s => pyParseFloat s
  | .pother => none

/-- Python `int(v)`: numbers truncate toward zero, integer strings parse,
anything else raises (`none`). -/
def pyIntOf : PyVal → Option Int
  | .pnum q => some (ratTrunc q)
  | .pstr s => pyParseInt s
  | .pother => none

/-- `RemoteLogCollector.REQUIRED_FIELDS`. -/
def REQUIRED_FIELDS : List String :=
  ["cpu_usage", "memory_usage", "process_count",
   "network_connections", "failed_logins", "timestamp"]

/-- `RemoteLogCollector._validate_schema`: required fields present, CPU and
memory numeric in `[0,100]`, the three counts non-negative integers, and
the timestamp a string; any conversion error yields `false`. -/
def validate_schema (d : RDict) : Bool :=
  if ¬ REQUIRED_FIELDS.all (fun k => (dget d k).isSome) then false
  else
    match (dget d "cpu_usage").bind pyFloatOf with
    | none => false
    | some cpu =>
      match (dget d "memory_usage").bind pyFloatOf with
      | none => false
      | some memory =>
        if ¬ (0 ≤ cpu ∧ cpu ≤ 100) then false
        else if ¬ (0 ≤ memory ∧ memory ≤ 100) then false
        else
          match (dget d "process_count").bind pyIntOf,
                (dget d "network_connections").bind pyIntOf,
                (dget d "failed_logins").bind pyIntOf with
          | some pc, some nc, some fl =>
            if pc < 0 ∨ nc < 0 ∨ fl < 0 then false
            else
              match dget d "timestamp" with
              | some (.pstr _) => true
              | _ => false
          | _, _, _ => false

/-- Outcome of `collect_from_endpoint`: the returned record (if any), the
number of HTTP request attempts performed, and the backoff sleeps. -/
structure FetchResult where
  data : Option RDict
  requests : Nat
  sleeps : List ℚ
deriving DecidableEq, Repr

/-- The `for attempt in range(3)` loop of
`RemoteLogCollector.collect_from_endpoint`: a failed request (timeout,
connection error, HTTP error, bad JSON — all `none` from `_make_request`)
is retried with backoff `2 ^ attempt` unless it was the final attempt;
a response that fails schema validation is discarded immediately with no
further attempt; a valid response is tagged with the endpoint's node id.
`rem` counts the remaining iterations. -/
def collect_attempts (nodeId : String) (b : Nat → Option RDict) :
    (attempt rem : Nat) → Nat → List ℚ → FetchResult
  | _, 0, made, sleeps => { data := none, requests := made, sleeps := sleeps }
  | attempt, rem + 1, made, sleeps =>
    match b attempt with
    | none =>
      if rem = 0 then { data := none, requests := made + 1, sleeps := sleeps }
      else collect_attempts nodeId b (attempt + 1) rem (made + 1)
        (sleeps ++ [(2:ℚ) ^ attempt])
    | some d =>
      if validate_schema d then
        { data := some (dset d "node_id" (.pstr nodeId)),
          requests := made + 1, sleeps := sleeps }
      else
        { data := none, requests := made + 1, sleeps := sleeps }

/-- `RemoteLogCollector.collect_from_endpoint` with its 3-attempt budget. -/
def collect_from_endpoint (nodeId : String) (b : Nat → Option RDict) :
    FetchResult :=
  collect_attempts nodeId b 0 3 0 []

/-- One iteration of the `collect_from_all` loop: append the collected
record, or log a warning and keep going when the endpoint yielded none. -/
def collect_all_step (acc : List RDict) (r : Option RDict) : List RDict :=
  match r with
  | some d => acc ++ [d]
  | none => acc

/-- `RemoteLogCollector.collect_from_all`: visits every endpoint, keeping
the records of the successful ones and skipping the rest. -/
def collect_from_all (eps : List (String × (Nat → Option RDict))) :
    List RDict :=
  eps.foldl (fun acc ep =>
    collect_all_step acc (collect_from_endpoint ep.1 ep.2).data) []

/-! ## Attack-graph engine (`src/graph_engine.py`) -/

/-- A node-attribute value: a number, a string, or a metadata dict. -/
inductive AVal where
  | aq (q : ℚ)
  | astr (s : String)
  | adict (m : List (String × ℚ))
deriving DecidableEq, Repr

/-- A node's attribute dictionary. -/
abbrev Attrs : Type := List (String × AVal)

/-- Python dict lookup on attributes. -/
def attrGet (a : Attrs) (k : String) : Option AVal :=
  (List.find? (fun p => p.1 = k) a).map (·.2)

/-- Python dict assignment on attributes (in-place update or append). -/
def attrSet (a : Attrs) (k : String) (v : AVal) : Attrs :=
  if (List.find? (fun p => p.1 = k) a).isSome then
    List.map (fun p => if p.1 = k then (k, v) else p) a
  else a ++ [(k, v)]

/-- Python `dict.update`: assign every supplied key in order. -/
def dictUpdate (old upd : Attrs) : Attrs :=
  upd.foldl (fun acc p => attrSet acc p.1 p.2) old

/-- The attack graph à la `networkx.DiGraph`: nodes in insertion order with
attribute dicts, and directed `(source, target, edge_type)` edges. -/
structure Graph where
  nodes : List (String × Attrs)
  edges : List (String × String × String)
deriving DecidableEq, Repr

/-- Supported node types (`NODE_TYPES`). -/
def NODE_TYPES : List String :=
  ["machine", "process", "service", "remote_server", "external_ip"]

/-- Supported edge types (`EDGE_TYPES`). -/
def EDGE_TYPES : List String :=
  ["network_connection", "process_spawn", "service_access", "ip_connection"]

/-- `networkx.DiGraph.add_node`: update the attribute dict of an existing
node with all supplied keys, or append a new node. -/
def nxAddNode (g : Graph) (n : String) (attrs : Attrs) : Graph :=
  if (List.find? (fun p => p.1 = n) g.nodes).isSome then
    { g with nodes :=
        g.nodes.map (fun p => if p.1 = n then (n, dictUpdate p.2 attrs) else p) }
  else
    { g with nodes := g.nodes ++ [(n, attrs)] }

/-- The default attribute dict `add_node` initializes on every call. -/
def defaultNodeAttrs (node_id node_type : String) : Attrs :=
  [("node_id", .astr node_id), ("node_type", .astr node_type),
   ("anomaly_score", .aq 0), ("risk_score", .aq 0), ("metadata", .adict [])]

/-- `GraphEngine.add_node`: validate the node type, build the default
attribute dict, overlay the supplied attributes, and hand the whole dict
to networkx (`add_node(node_id, **node_attrs)`). -/
def add_node (g : Graph) (node_id : String) (node_type : String)
    (attributes : Attrs) : Except String Graph :=
  if node_type ∈ NODE_TYPES then
    .ok (nxAddNode g node_id
      (dictUpdate (defaultNodeAttrs node_id node_type) attributes))
  else .error "Invalid node_type"

/-- `networkx.DiGraph.add_edge`: create missing endpoints as bare nodes and
add the edge, overwriting its attributes if it already exists. -/
def nxAddEdge (g : Graph) (s t ty : String) : Graph :=
  let g1 := if (List.find? (fun p => p.1 = s) g.nodes).isSome then g
    else { g with nodes := g.nodes ++ [(s, [])] }
  let g2 := if (List.find? (fun p => p.1 = t) g1.nodes).isSome then g1
    else { g1 with nodes := g1.nodes ++ [(t, [])] }
  if (g2.edges.find? (fun e => e.1 = s ∧ e.2.1 = t)).isSome then
    { g2 with edges :=
        g2.edges.map (fun e => if e.1 = s ∧ e.2.1 = t then (s, t, ty) else e) }
  else { g2 with edges := g2.edges ++ [(s, t, ty)] }

/-- `GraphEngine.add_edge`: validate the edge type, then add the edge. -/
def add_edge (g : Graph) (source target edge_type : String) :
    Except String Graph :=
  if edge_type ∈ EDGE_TYPES then .ok (nxAddEdge g source target edge_type)
  else .error "Invalid edge_type"

/-- `GraphEngine.update_anomaly_score`: `KeyError` when the node is absent,
otherwise set its `anomaly_score` attribute. -/
def update_anomaly_score (g : Graph) (node_id : String) (score : ℚ) :
    Except String Graph :=
  if g.nodes.any (fun p => p.1 = node_id) then
    .ok { g with nodes := g.nodes.map (fun p =>
      if p.1 = node_id then (p.1, attrSet p.2 "anomaly_score" (.aq score))
      else p) }
  else .error "KeyError"

/-- Numeric attribute read with Python's `.get(k, 0.0)` default. -/
def getQAttr (a : Attrs) (k : String) : ℚ :=
  match attrGet a k with
  | some (.aq q) => q
  | _ => 0

/-- Attribute dict of a node (empty when absent). -/
def nodeAttrsIn (ns : List (String × Attrs)) (n : String) : Attrs :=
  ((List.find? (fun p => p.1 = n) ns).map (·.2)).getD []

/-- A node's `risk_score` (default 0). -/
def risk_score (g : Graph) (n : String) : ℚ :=
  getQAttr (nodeAttrsIn g.nodes n) "risk_score"

/-- A node's `anomaly_score` (default 0). -/
def anomaly_score (g : Graph) (n : String) : ℚ :=
  getQAttr (nodeAttrsIn g.nodes n) "anomaly_score"

/-- A node's `node_type` attribute, when it is a string. -/
def node_type_of (g : Graph) (n : String) : Option String :=
  match attrGet (nodeAttrsIn g.nodes n) "node_type" with
  | some (.astr s) => some s
  | _ => none

/-- `graph.successors(n)`: targets of the outgoing edges of `n`, in edge
insertion order. -/
def successors (es : List (String × String × String)) (n : String) :
    List String :=
  (es.filter (fun e => e.1 = n)).map (fun e => e.2.1)

/-- `risk_score = max(current, propagated)` at one node. -/
def setMaxRisk (ns : List (String × Attrs)) (n : String) (v : ℚ) :
    List (String × Attrs) :=
  ns.map (fun p =>
    if p.1 = n then
      (p.1, attrSet p.2 "risk_score" (.aq (max (getQAttr p.2 "risk_score") v)))
    else p)

/-- The neighbours enqueued at one pop: successors not yet visited, each
added to the visited set as it is enqueued (so duplicates are filtered). -/
def newNeighbors (es : List (String × String × String))
    (visited : List String) (n : String) : List String :=
  (successors es n).foldl
    (fun acc s => if s ∈ visited ∨ s ∈ acc then acc else acc ++ [s]) []

/-- All edge targets: every node ever enqueued beyond the source is one. -/
def edgeTargets (es : List (String × String × String)) : List String :=
  es.map (fun e => e.2.1)

/-- Iteration bound for one BFS traversal: every pop beyond the initial
queue corresponds to a distinct newly-visited edge target. -/
def bfsBound (es : List (String × String × String)) (visited : List String)
    (queue : List (String × Nat)) : Nat :=
  queue.length + ((edgeTargets es).filter (fun t => ¬ t ∈ visited)).length

/-- The `while queue` loop of `GraphEngine.propagate_risk` for one source:
pop `(node, depth)`, set `risk_score = max(current, risk * decay ^ depth)`,
enqueue unvisited successors at `depth + 1` (marking them visited), repeat.
`risk` is the source's anomaly score, carried unchanged through the queue
in the source code.  Returns the updated node list and the popped
`(node, depth)` pairs; `fuel` bounds the iterations and `bfsBound` is
always sufficient (proved below: the result is fuel-independent from
there on, which is how the Python loop terminates on cyclic graphs). -/
def bfsAux (es : List (String × String × String)) (risk decay : ℚ) :
    Nat → List String → List (String × Nat) → List (String × Attrs) →
      List (String × Nat) → List (String × Attrs) × List (String × Nat)
  | 0, _, _, ns, pops => (ns, pops)
  | _ + 1, _, [], ns, pops => (ns, pops)
  | fuel + 1, visited, (n, depth) :: queue, ns, pops =>
    let ns1 := setMaxRisk ns n (risk * decay ^ depth)
    let new := newNeighbors es visited n
    bfsAux es risk decay fuel (visited ++ new)
      (queue ++ new.map (fun m => (m, depth + 1))) ns1 (pops ++ [(n, depth)])

/-- One full BFS traversal from `source` (visited = `{source}`, queue =
`[(source, 0)]`), with sufficient fuel. -/
def bfsFrom (es : List (String × String × String)) (risk decay : ℚ)
    (source : String) (ns : List (String × Attrs)) :
    List (String × Attrs) × List (String × Nat) :=
  bfsAux es risk decay (1 + (edgeTargets es).length) [source] [(source, 0)] ns []

/-- The nodes with `anomaly_score > 0`, in node insertion order. -/
def high_risk_nodes (g : Graph) : List String :=
  (g.nodes.filter (fun p => getQAttr p.2 "anomaly_score" > 0)).map (·.1)

/-- `GraphEngine.propagate_risk`: one BFS traversal per high-anomaly
source, each reading the source's anomaly score from the current node
state and accumulating risk maxima. -/
def propagate_risk (g : Graph) (decay_factor : ℚ) : Graph :=
  let ns := List.foldl
    (fun ns source =>
      (bfsFrom g.edges (getQAttr (nodeAttrsIn ns source) "anomaly_score")
        decay_factor source ns).1)
    g.nodes (high_risk_nodes g)
  { g with nodes := ns }

/-- The `(node, first-visit depth)` pairs of the BFS traversal from
`source` — the traversal's visit record. -/
def bfsPairs (es : List (String × String × String)) (source : String) :
    List (String × Nat) :=
  (bfsAux es 0 0 (1 + (edgeTargets es).length) [source] [(source, 0)] [] []).2

/-- `networkx.has_path`: reachability along directed edges. -/
def has_path (es : List (String × String × String)) (s t : String) : Bool :=
  (bfsPairs es s).any (fun p => p.1 = t)

/-- `networkx.all_simple_paths(G, cur→target, cutoff)` as a DFS: a path
stops at the target; otherwise extend along successors not already on the
path, consuming one unit of cutoff per edge.  `acc` is the reversed path
so far, including `cur`. -/
def simplePathsAux (es : List (String × String × String)) (target : String) :
    Nat → String → List String → List (List String)
  | 0, cur, acc => if cur = target then [acc.reverse] else []
  | k + 1, cur, acc =>
    if cur = target then [acc.reverse]
    else ((successors es cur).filter (fun s => ¬ s ∈ acc)).flatMap
      (fun nxt => simplePathsAux es target k nxt (nxt :: acc))

/-- All simple paths from `s` to `t` with at most `cutoff` edges. -/
def all_simple_paths (g : Graph) (s t : String) (cutoff : Nat) :
    List (List String) :=
  simplePathsAux g.edges t cutoff s [s]

/-- Entry candidates: nodes of type `remote_server` or `external_ip`. -/
def entry_points_typed (g : Graph) : List String :=
  (g.nodes.filter (fun p =>
    match attrGet p.2 "node_type" with
    | some (.astr s) => s = "remote_server" ∨ s = "external_ip"
    | _ => false)).map (·.1)

/-- Target candidates: `machine` nodes with `anomaly_score > 0.7`. -/
def targets_typed (g : Graph) : List String :=
  (g.nodes.filter (fun p =>
    (match attrGet p.2 "node_type" with
     | some (.astr s) => decide (s = "machine")
     | _ => false) && decide (getQAttr p.2 "anomaly_score" > mkRat 7 10))).map (·.1)

/-- Entry candidates with the fallback to nodes of `anomaly_score > 0.5`. -/
def entry_points_final (g : Graph) : List String :=
  let e := entry_points_typed g
  if e = [] then
    (g.nodes.filter (fun p => getQAttr p.2 "anomaly_score" > mkRat 1 2)).map (·.1)
  else e

/-- Target candidates with the fallback to nodes of `anomaly_score > 0`. -/
def targets_final (g : Graph) : List String :=
  let t := targets_typed g
  if t = [] then
    (g.nodes.filter (fun p => getQAttr p.2 "anomaly_score" > 0)).map (·.1)
  else t

/-- Cumulative risk score of a path: sum of `risk_score` over its nodes. -/
def path_score (g : Graph) (path : List String) : ℚ :=
  (path.map (fun n => risk_score g n)).sum

/-- The best-path update: keep the strictly higher score, breaking a tie
by preferring strictly fewer nodes. -/
def betterPath (g : Graph) (best : List String × ℚ) (path : List String) :
    List String × ℚ :=
  let score := path_score g path
  if score > best.2 ∨ (score = best.2 ∧ path.length < best.1.length) then
    (path, score)
  else best

/-- The candidate paths `find_highest_risk_path` iterates over, in loop
order: for every entry × target pair with distinct endpoints and a path
between them, all simple paths of at most 10 edges. -/
def candidatePaths (g : Graph) : List (List String) :=
  (entry_points_final g).flatMap (fun entry =>
    (targets_final g).flatMap (fun target =>
      if entry = target then []
      else if has_path g.edges entry target then all_simple_paths g entry target 10
      else []))

/-- `GraphEngine.find_highest_risk_path`: fold the best-path update over
the candidate paths starting from `([], 0.0)`. -/
def find_highest_risk_path (g : Graph) : List String :=
  ((candidatePaths g).foldl (betterPath g) ([], 0)).1

/-! ### Concrete graphs used as witnesses and counterexamples -/

/-- The empty graph. -/
def gEmpty : Graph := { nodes := [], edges := [] }

/-- A machine node added with no extra attributes. -/
def gReAdd1 : Graph := (add_node gEmpty "n" "machine" []).toOption.getD gEmpty

/-- ... whose anomaly score is then set to 0.5. -/
def gReAdd2 : Graph :=
  (update_anomaly_score gReAdd1 "n" (mkRat 1 2)).toOption.getD gReAdd1

/-- ... and which is then re-added with only a `timestamp` attribute. -/
def gReAdd3 : Graph :=
  (add_node gReAdd2 "n" "machine" [("timestamp", .astr "t")]).toOption.getD gReAdd2

/-- A 2-hop chain `A → B → C` whose source `A` has anomaly score 0.9. -/
def gChain : Graph :=
  let g1 := (add_node gEmpty "A" "machine"
    [("anomaly_score", .aq (mkRat 9 10))]).toOption.getD gEmpty
  let g2 := (add_node g1 "B" "machine" []).toOption.getD g1
  let g3 := (add_node g2 "C" "machine" []).toOption.getD g2
  let g4 := (add_edge g3 "A" "B" "network_connection").toOption.getD g3
  (add_edge g4 "B" "C" "network_connection").toOption.getD g4

/-- A single edge from remote server `R` to machine `M` with anomaly 0.8,
before any risk propagation (all risk scores still 0). -/
def gRM : Graph :=
  let g1 := (add_node gEmpty "R" "remote_server" []).toOption.getD gEmpty
  let g2 := (add_node g1 "M" "machine"
    [("anomaly_score", .aq (mkRat 8 10))]).toOption.getD g1
  (add_edge g2 "R" "M" "ip_connection").toOption.getD g2

/-- A single edge from remote server `R` to machine `M` with anomaly 0.9
and risk 0.9 (the state after propagation). -/
def gRM2 : Graph :=
  let g1 := (add_node gEmpty "R" "remote_server" []).toOption.getD gEmpty
  let g2 := (add_node g1 "M" "machine"
    [("anomaly_score", .aq (mkRat 9 10)),
     ("risk_score", .aq (mkRat 9 10))]).toOption.getD g1
  (add_edge g2 "R" "M" "ip_connection").toOption.getD g2

/-- Two entries into machine `M`: a 3-node path `R2 → X → M` and a 2-node
path `R1 → M`, with equal total risk 1.1. -/
def gTie : Graph :=
  let g1 := (add_node gEmpty "R2" "remote_server"
    [("risk_score", .aq (mkRat 1 10))]).toOption.getD gEmpty
  let g2 := (add_node g1 "X" "service"
    [("risk_score", .aq (mkRat 2 10))]).toOption.getD g1
  let g3 := (add_node g2 "R1" "remote_server"
    [("risk_score", .aq (mkRat 3 10))]).toOption.getD g2
  let g4 := (add_node g3 "M" "machine"
    [("anomaly_score", .aq (mkRat 8 10)),
     ("risk_score", .aq (mkRat 8 10))]).toOption.getD g3
  let g5 := (add_edge g4 "R2" "X" "network_connection").toOption.getD g4
  let g6 := (add_edge g5 "X" "M" "network_connection").toOption.getD g5
  (add_edge g6 "R1" "M" "network_connection").toOption.getD g6

/-- A write behaviour in which every attempt succeeds. -/
def alwaysOkWrite {α : Type} : WriteBehaviour α :=
  { writeOk := fun _ => true, failFile := fun _ => .missing }

/-- Iterated successful `save_log` calls over a list of feature vectors. -/
def save_log_many (fvs : List FeatureVector) (f : JFile FeatureVector) :
    JFile FeatureVector :=
  fvs.foldl (fun f fv => (save_log alwaysOkWrite false fv 3 f).file) f

/-- Iterated successful `save_alert` calls over a list of alerts. -/
def save_alert_many (als : List Alert) (f : JFile Alert) : JFile Alert :=
  als.foldl (fun f a => (save_alert alwaysOkWrite a 3 f).file) f

/-- A well-formed remote response body. -/
def dGoodRemote : RDict :=
  [("cpu_usage", .pnum 45), ("memory_usage", .pnum 60),
   ("process_count", .pnum 120), ("network_connections", .pnum 30),
   ("failed_logins", .pnum 2), ("timestamp", .pstr "2024-01-01T00:00:00Z")]

/-- A remote response body missing the `failed_logins` field. -/
def dMissingFailedLogins : RDict :=
  [("cpu_usage", .pnum 45), ("memory_usage", .pnum 60),
   ("process_count", .pnum 120), ("network_connections", .pnum 30),
   ("timestamp", .pstr "2024-01-01T00:00:00Z")]

/-- A remote response body with an out-of-range CPU reading. -/
def dCpu150 : RDict :=
  [("cpu_usage", .pnum 150), ("memory_usage", .pnum 60),
   ("process_count", .pnum 120), ("network_connections", .pnum 30),
   ("failed_logins", .pnum 2), ("timestamp", .pstr "2024-01-01T00:00:00Z")]

/-- Risk score of a node's attribute list. -/
def riskIn (ns : List (String × Attrs)) (n : String) : ℚ :=
  getQAttr (nodeAttrsIn ns n) "risk_score"

/-- Anomaly score of a node's attribute list. -/
def anomalyIn (ns : List (String × Attrs)) (n : String) : ℚ :=
  getQAttr (nodeAttrsIn ns n) "anomaly_score"

/-- The cumulative effect of a traversal's pops on the node state: fold
the max-update over the popped `(node, depth)` pairs. -/
def applyPairs (r d : ℚ) (ns : List (String × Attrs))
    (ps : List (String × Nat)) : List (String × Attrs) :=
  ps.foldl (fun ns p => setMaxRisk ns p.1 (r * d ^ p.2)) ns

/-- Directed reachability along the graph's edges. -/
inductive ReachesE (es : List (String × String × String)) (s : String) :
    String → Prop where
  | refl : ReachesE es s s
  | step (m x : String) : ReachesE es s m → x ∈ successors es m →
      ReachesE es s x

/-! ## Pipeline orchestrator (`src/log_collector.py`, `LogCollector.collect_once`)

`collect_once` drives one collection cycle through ten stages, each guarded
by its own `try/except`.  The stages call external components (system
metrics, data processor, model, alert engine, graph engine, storage), so
their outcomes are supplied by a behaviour record: `Except.error` models the
stage raising an exception, `Except.ok` a normal return. -/

/-- Raw metric payload returned by `LogCollector._collect_metrics` (step 1);
the orchestrator only passes it on to `DataProcessor.process`, so its
internal structure is opaque here. -/
structure RawData where
  payload : List (String × String)
deriving DecidableEq, Repr

/-- Outcomes of every fallible stage invoked by one `collect_once` cycle. -/
structure CycleBehaviour where
  /-- Step 1: `self._collect_metrics()` — not wrapped in an inner `try`. -/
  collectMetrics : Except String RawData
  /-- Whether `self.remote_log_collector` is configured (not `None`). -/
  remoteConfigured : Bool
  /-- Step 2: `remote_log_collector.collect_from_all()`.  Each element is a
  validated remote-log dict, given as the `FeatureVector` that its fields
  build at step 10; an `Except.error` element models the
  `FeatureVector(...)` conversion raising (e.g. `KeyError`). -/
  remoteFetch : Except String (List (Except String FeatureVector))
  /-- Step 3: `self.data_processor.process(raw_data)`. -/
  processData : RawData → Except String FeatureVector
  /-- Step 4: `self.data_processor.validate(feature_vector)`. -/
  validate : FeatureVector → Except String Bool
  /-- Step 5: `self.model_interface.predict(feature_vector)`. -/
  predict : FeatureVector → Except String PredictionResult
  /-- Step 6: derivations inside `alert_engine.process_prediction`. -/
  alertDerive : DeriveBehaviour
  /-- The alert engine's `alert_threshold`. -/
  alertThreshold : ℚ
  /-- Step 7: the graph-update block (`add_node`, `update_anomaly_score`,
  `add_ip_nodes_from_feature_vector`, `propagate_risk`). -/
  updateGraph : Except String Unit
  /-- Step 8: `self.storage_manager.save_log(feature_vector)`. -/
  saveLog : FeatureVector → Except String Bool
  /-- Step 9: `self.storage_manager.save_alert(alert)`. -/
  saveAlert : Alert → Except String Bool
  /-- Step 10, per remote log: `model_interface.predict(remote_fv)`. -/
  remotePredict : Nat → Except String PredictionResult
  /-- Step 10, per remote log: derivations inside `process_prediction`. -/
  remoteDerive : Nat → DeriveBehaviour
  /-- Step 10, per remote log: the graph-update calls. -/
  remoteGraph : Nat → Except String Unit
  /-- Step 10, per remote log: `storage_manager.save_log(remote_fv)`. -/
  remoteSaveLog : Nat → Except String Bool
  /-- Step 10, per remote log: `storage_manager.save_alert(remote_alert)`. -/
  remoteSaveAlert : Nat → Except String Bool

/-- Observable side effects of one `collect_once` cycle. -/
structure CycleEffects where
  /-- Step 7 graph update completed without raising. -/
  localGraphUpdated : Bool := false
  /-- Step 8 `save_log(feature_vector)` returned `True`. -/
  localLogSaved : Bool := false
  /-- Alert id the local alert was saved under at step 9 (if any). -/
  localAlertSaved : Option String := none
  /-- Node ids of remote logs that were scored and alert-processed. -/
  remoteScored : List String := []
  /-- Node ids of remote logs whose graph update completed. -/
  remoteGraphed : List String := []
  /-- Node ids of remote logs whose `save_log` call returned. -/
  remoteSaved : List String := []
  /-- Alert ids of remote alerts whose `save_alert` call returned. -/
  remoteAlertsSaved : List String := []
deriving DecidableEq, Repr

/-- The cycle effects before any stage has run. -/
def emptyEffects : CycleEffects := {}

/-- One iteration of step 10: convert one remote log and push it through
predict, `process_prediction`, the graph updates and storage.  The
surrounding `try/except ... continue` makes a raise anywhere abandon only
the rest of this iteration. -/
def processRemoteLog (b : CycleBehaviour) (idx : Nat)
    (entry : Except String FeatureVector) (eff : CycleEffects) : CycleEffects :=
  match entry with
  | .error _ => eff
  | .ok remote_fv =>
    match b.remotePredict idx with
    | .error _ => eff
    | .ok remote_prediction =>
      let remote_alert := process_prediction b.alertThreshold
        (b.remoteDerive idx) remote_fv.node_id remote_prediction remote_fv
      let eff := { eff with remoteScored := eff.remoteScored ++ [remote_fv.node_id] }
      match b.remoteGraph idx with
      | .error _ => eff
      | .ok _ =>
        let eff := { eff with remoteGraphed := eff.remoteGraphed ++ [remote_fv.node_id] }
        match b.remoteSaveLog idx with
        | .error _ => eff
        | .ok _ =>
          let eff := { eff with remoteSaved := eff.remoteSaved ++ [remote_fv.node_id] }
          match remote_alert with
          | none => eff
          | some a =>
            match b.remoteSaveAlert idx with
            | .error _ => eff
            | .ok _ => { eff with remoteAlertsSaved := eff.remoteAlertsSaved ++ [a.alert_id] }

/-- The remote logs visible to the cycle after step 2: the fetch result if
a remote collector is configured, `[]` when no collector is configured or
its fetch raised (the inner `try` swallows the raise and continues with
local logs only). -/
def remoteLogsOf (b : CycleBehaviour) : List (Except String FeatureVector) :=
  if b.remoteConfigured then
    match b.remoteFetch with
    | .ok ls => ls
    | .error _ => []
  else []

/-- Steps 5 through 10, reached once the local snapshot passed validation:
predict (a raise degrades to no prediction), alert, graph update, storage,
then each remote log in order. -/
def collect_once_validated (b : CycleBehaviour)
    (remote_logs : List (Except String FeatureVector))
    (feature_vector : FeatureVector) :
    Except String (Option FeatureVector × CycleEffects) :=
  let prediction : Option PredictionResult :=
    match b.predict feature_vector with
    | .ok p => some p
    | .error _ => none
  let alert : Option Alert :=
    match prediction with
    | some p => process_prediction b.alertThreshold b.alertDerive feature_vector.node_id p feature_vector
    | none => none
  let eff : CycleEffects := emptyEffects
  let eff := match b.updateGraph with
    | .ok _ => { eff with localGraphUpdated := true }
    | .error _ => eff
  let eff := match b.saveLog feature_vector with
    | .ok r => { eff with localLogSaved := r }
    | .error _ => eff
  let eff := match alert with
    | none => eff
    | some a =>
      match b.saveAlert a with
      | .ok _ => { eff with localAlertSaved := some a.alert_id }
      | .error _ => eff
  let eff := (remote_logs.enum).foldl (fun acc p => processRemoteLog b p.1 p.2 acc) eff
  .ok (some feature_vector, eff)

/-- Step 4 dispatch, on the outcome of `validate(feature_vector)`: a raise
or a `False` result abandons the cycle (`return None`) before any remote
log is touched. -/
def collect_once_from_validation (b : CycleBehaviour)
    (remote_logs : List (Except String FeatureVector))
    (feature_vector : FeatureVector) :
    Except String Bool → Except String (Option FeatureVector × CycleEffects)
  | .error _ => .ok (none, emptyEffects)
  | .ok false => .ok (none, emptyEffects)
  | .ok true => collect_once_validated b remote_logs feature_vector

/-- Step 3 dispatch, on the outcome of `process(raw_data)`: a raise
abandons the cycle (`return None`). -/
def collect_once_from_processed (b : CycleBehaviour)
    (remote_logs : List (Except String FeatureVector)) :
    Except String FeatureVector → Except String (Option FeatureVector × CycleEffects)
  | .error _ => .ok (none, emptyEffects)
  | .ok feature_vector =>
    collect_once_from_validation b remote_logs feature_vector (b.validate feature_vector)

/-- Step 1 dispatch, on the outcome of `_collect_metrics()`: it has no
inner `try`, so a raise propagates to the outer handler. -/
def collect_once_from_metrics (b : CycleBehaviour) :
    Except String RawData → Except String (Option FeatureVector × CycleEffects)
  | .error e => .error e
  | .ok raw_data =>
    collect_once_from_processed b (remoteLogsOf b) (b.processData raw_data)

/-- The body of `collect_once`'s outer `try`: steps 1 through 10.  Returns
the cycle's result (`some` feature vector, or `none` on an early
recoverable return) together with its effects; an `Except.error` is a raise
that only the outer handler sees. -/
def collect_once_body (b : CycleBehaviour) :
    Except String (Option FeatureVector × CycleEffects) :=
  collect_once_from_metrics b b.collectMetrics

/-- `LogCollector.collect_once`: one collection cycle.  The outer
`except Exception` catches any raise escaping the body and returns `None`,
so the call itself never raises. -/
def collect_once (b : CycleBehaviour) :
    Except String (Option FeatureVector × CycleEffects) :=
  match collect_once_body b with
  | .ok r => .ok r
  | .error _ => .ok (none, emptyEffects)

/-- A sample prediction above the default `0.7` threshold. -/
def prHigh : PredictionResult :=
  { anomaly_score := mkRat 9 10, label := "anomaly", confidence := mkRat 9 10 }

/-- The raw metric payload used in the concrete cycles below. -/
def rawSample : RawData := ⟨[("cpu_usage", "45.0")]⟩

/-- A remote feature vector as built from a validated remote-log dict. -/
def fvRemote : FeatureVector :=
  { cpu_usage := 30, memory_usage := 40, process_count := 120,
    network_connections := 25, failed_logins := 1,
    timestamp := "2024-01-01T00:00:00Z", node_id := "remote-1" }

/-- A fully healthy cycle behaviour: every stage succeeds, one remote log. -/
def bHealthy : CycleBehaviour :=
  { collectMetrics := .ok rawSample
    remoteConfigured := true
    remoteFetch := .ok [.ok fvRemote]
    processData := fun _ => .ok fvSample
    validate := fun _ => .ok true
    predict := fun _ => .ok prHigh
    alertDerive := dbSample
    alertThreshold := mkRat 7 10
    updateGraph := .ok ()
    saveLog := fun _ => .ok true
    saveAlert := fun _ => .ok true
    remotePredict := fun _ => .ok prHigh
    remoteDerive := fun _ => dbSample
    remoteGraph := fun _ => .ok ()
    remoteSaveLog := fun _ => .ok true
    remoteSaveAlert := fun _ => .ok true }

/-- The healthy behaviour with local validation returning `False`; the
remote fetch still yields one remote log. -/
def bValidateFalse : CycleBehaviour :=
  { bHealthy with validate := fun _ => .ok false }

/-- C2: over the whole score range, `process_prediction` yields an alert
exactly when the anomaly score strictly exceeds the threshold; when it does,
the alert carries the score and each derived field is either the derived
value or its documented fallback when that derivation raised. -/
theorem C2_alert_iff_score_exceeds_threshold
    (threshold : ℚ) (b : DeriveBehaviour) (nid : String)
    (p : PredictionResult) (fv : FeatureVector)
    (hs0 : 0 ≤ p.anomaly_score) (hs1 : p.anomaly_score ≤ 1)
    (ht0 : 0 ≤ threshold) (ht1 : threshold ≤ 1) :
    (process_prediction threshold b nid p fv = none ↔ p.anomaly_score ≤ threshold) ∧
    (threshold < p.anomaly_score →
      ∃ a, process_prediction threshold b nid p fv = some a ∧
        a.anomaly_score = p.anomaly_score ∧
        a.node_id = nid ∧
        a.severity = (if b.severityRaises then "medium"
                      else calculate_severity p.anomaly_score) ∧
        a.suspected_reason = (if b.reasonRaises then "anomalous pattern detected"
                              else determine_suspected_reason fv) ∧
        a.suspicious_ips = (if b.ipsRaises then []
                            else identify_suspicious_ips fv)) := by
  constructor
  · constructor
    · intro h
      by_contra hle
      simp only [process_prediction, if_neg hle] at h
      exact Option.noConfusion h
    · intro h
      simp only [process_prediction, if_pos h]
  · intro hlt
    have hnle : ¬ p.anomaly_score ≤ threshold := not_le.mpr hlt
    simp only [process_prediction, if_neg hnle]
    exact ⟨_, rfl, rfl, rfl, rfl, rfl, rfl⟩

/-- Witness for C2 at a concrete score 0.85 against threshold 0.7. -/
theorem C2_alert_iff_score_exceeds_threshold_witness :
    ((0:ℚ) ≤ (0.85:ℚ) ∧ (0.85:ℚ) ≤ 1 ∧ (0:ℚ) ≤ (0.7:ℚ) ∧ (0.7:ℚ) ≤ 1) ∧
    ((process_prediction 0.7 dbSample "local"
        { anomaly_score := 0.85, label := "anomaly", confidence := 0.7 } fvSample = none ↔
        (0.85:ℚ) ≤ 0.7) ∧
      ((0.7:ℚ) < 0.85 →
        ∃ a, process_prediction 0.7 dbSample "local"
            { anomaly_score := 0.85, label := "anomaly", confidence := 0.7 } fvSample = some a ∧
          a.anomaly_score = 0.85 ∧
          a.node_id = "local" ∧
          a.severity = (if dbSample.severityRaises then "medium"
                        else calculate_severity 0.85) ∧
          a.suspected_reason = (if dbSample.reasonRaises then "anomalous pattern detected"
                                else determine_suspected_reason fvSample) ∧
          a.suspicious_ips = (if dbSample.ipsRaises then []
                              else identify_suspicious_ips fvSample))) :=
  ⟨⟨by norm_num, by norm_num, by norm_num, by norm_num⟩,
    C2_alert_iff_score_exceeds_threshold 0.7 dbSample "local"
      { anomaly_score := 0.85, label := "anomaly", confidence := 0.7 } fvSample
      (by norm_num) (by norm_num) (by norm_num) (by norm_num)⟩

/-- When every attempt fails, the retry loop runs exactly the remaining
number of iterations and reports failure. -/
lemma save_attempts_all_fail {α : Type} (ff : Nat → JFile α) (entry : α) :
    ∀ (rem attempt : Nat) (f : JFile α) (made : Nat) (sleeps : List ℚ),
      (save_attempts ⟨fun _ => false, ff⟩ entry attempt rem f made sleeps).ok = false ∧
      (save_attempts ⟨fun _ => false, ff⟩ entry attempt rem f made sleeps).attempts
        = made + rem := by
  intro rem
  induction rem with
  | zero => intro attempt f made sleeps; simp [save_attempts]
  | succ n ih =>
    intro attempt f made sleeps
    by_cases hn : n = 0
    · subst hn; simp [save_attempts]
    · simp only [save_attempts, Bool.false_eq_true, if_false, if_neg hn]
      rcases ih (attempt + 1) (ff attempt) (made + 1)
        (sleeps ++ [(1 / 10) * 2 ^ attempt]) with ⟨h1, h2⟩
      refine ⟨h1, ?_⟩
      rw [h2]; omega

/-- C7: with `max_retries = 3`, a write sequence failing twice then
succeeding performs exactly 3 attempts, sleeps 0.1s then 0.2s between them
and returns `true`; a write that always fails performs exactly
`max_retries` attempts and returns `false` — for both `save_log` and
`save_alert`. -/
theorem C7_retry_backoff_attempt_counts :
    (∀ (fv : FeatureVector) (f : JFile FeatureVector)
        (ff : Nat → JFile FeatureVector),
      (save_log ⟨fun i => decide (2 ≤ i), ff⟩ false fv 3 f).ok = true ∧
      (save_log ⟨fun i => decide (2 ≤ i), ff⟩ false fv 3 f).attempts = 3 ∧
      (save_log ⟨fun i => decide (2 ≤ i), ff⟩ false fv 3 f).sleeps = [1/10, 1/5]) ∧
    (∀ (a : Alert) (f : JFile Alert) (ff : Nat → JFile Alert),
      (save_alert ⟨fun i => decide (2 ≤ i), ff⟩ a 3 f).ok = true ∧
      (save_alert ⟨fun i => decide (2 ≤ i), ff⟩ a 3 f).attempts = 3 ∧
      (save_alert ⟨fun i => decide (2 ≤ i), ff⟩ a 3 f).sleeps = [1/10, 1/5]) ∧
    (∀ (m : Nat) (fv : FeatureVector) (f : JFile FeatureVector)
        (ff : Nat → JFile FeatureVector),
      (save_log ⟨fun _ => false, ff⟩ false fv m f).ok = false ∧
      (save_log ⟨fun _ => false, ff⟩ false fv m f).attempts = m) ∧
    (∀ (m : Nat) (a : Alert) (f : JFile Alert) (ff : Nat → JFile Alert),
      (save_alert ⟨fun _ => false, ff⟩ a m f).ok = false ∧
      (save_alert ⟨fun _ => false, ff⟩ a m f).attempts = m) := by
  refine ⟨?_, ?_, ?_, ?_⟩
  · intro fv f ff
    refine ⟨?_, ?_, ?_⟩ <;> simp [save_log, save_attempts] <;> norm_num
  · intro a f ff
    refine ⟨?_, ?_, ?_⟩ <;> simp [save_alert, save_attempts] <;> norm_num
  · intro m fv f ff
    have h := save_attempts_all_fail ff fv m 0 f 0 []
    simpa [save_log] using h
  · intro m a f ff
    have h := save_attempts_all_fail ff a m 0 f 0 []
    simpa [save_alert] using h

/-- A single successful `save_log` on a valid array file appends exactly
the new record. -/
lemma save_log_appends (l : List FeatureVector) (fv : FeatureVector) :
    (save_log alwaysOkWrite false fv 3 (.parsed (.jarr l))).file
      = .parsed (.jarr (l ++ [fv])) ∧
    (save_log alwaysOkWrite false fv 3 (.parsed (.jarr l))).ok = true := by
  constructor <;> rfl

/-- A single successful `save_alert` on a valid array file appends exactly
the new record. -/
lemma save_alert_appends (l : List Alert) (a : Alert) :
    (save_alert alwaysOkWrite a 3 (.parsed (.jarr l))).file
      = .parsed (.jarr (l ++ [a])) ∧
    (save_alert alwaysOkWrite a 3 (.parsed (.jarr l))).ok = true := by
  constructor <;> rfl

/-- Iterated successful `save_log` calls append in order. -/
lemma save_log_many_arr :
    ∀ (fvs : List FeatureVector) (l : List FeatureVector),
      save_log_many fvs (.parsed (.jarr l)) = .parsed (.jarr (l ++ fvs)) := by
  intro fvs
  induction fvs with
  | nil => intro l; simp [save_log_many]
  | cons fv rest ih =>
    intro l
    have hstep : (save_log alwaysOkWrite false fv 3
        (.parsed (.jarr l))).file = .parsed (.jarr (l ++ [fv])) :=
      (save_log_appends l fv).1
    simp only [save_log_many, List.foldl_cons] at *
    rw [hstep, ih (l ++ [fv])]
    simp

/-- Iterated successful `save_alert` calls append in order. -/
lemma save_alert_many_arr :
    ∀ (als : List Alert) (l : List Alert),
      save_alert_many als (.parsed (.jarr l)) = .parsed (.jarr (l ++ als)) := by
  intro als
  induction als with
  | nil => intro l; simp [save_alert_many]
  | cons a rest ih =>
    intro l
    have hstep : (save_alert alwaysOkWrite a 3
        (.parsed (.jarr l))).file = .parsed (.jarr (l ++ [a])) :=
      (save_alert_appends l a).1
    simp only [save_alert_many, List.foldl_cons] at *
    rw [hstep, ih (l ++ [a])]
    simp

/-- C8: starting from a valid JSON array, `N` successful saves leave the
file holding exactly the prior entries followed by the `N` new entries, and
the `N`-th save appends one record at the end while the earlier entries
appear unchanged — for both collections. -/
theorem C8_saves_append_only :
    (∀ (l : List FeatureVector) (fv : FeatureVector),
      (save_log alwaysOkWrite false fv 3 (.parsed (.jarr l))).file
        = .parsed (.jarr (l ++ [fv]))) ∧
    (∀ (l fvs : List FeatureVector),
      save_log_many fvs (.parsed (.jarr l)) = .parsed (.jarr (l ++ fvs))) ∧
    (∀ (l fvs : List FeatureVector) (fv : FeatureVector),
      save_log_many (fvs ++ [fv]) (.parsed (.jarr l))
        = .parsed (.jarr ((l ++ fvs) ++ [fv]))) ∧
    (∀ (l : List Alert) (a : Alert),
      (save_alert alwaysOkWrite a 3 (.parsed (.jarr l))).file
        = .parsed (.jarr (l ++ [a]))) ∧
    (∀ (l als : List Alert),
      save_alert_many als (.parsed (.jarr l)) = .parsed (.jarr (l ++ als))) ∧
    (∀ (l als : List Alert) (a : Alert),
      save_alert_many (als ++ [a]) (.parsed (.jarr l))
        = .parsed (.jarr ((l ++ als) ++ [a]))) := by
  refine ⟨fun l fv => (save_log_appends l fv).1,
          fun l fvs => save_log_many_arr fvs l,
          fun l fvs fv => ?_,
          fun l a => (save_alert_appends l a).1,
          fun l als => save_alert_many_arr als l,
          fun l als a => ?_⟩
  · rw [save_log_many_arr]; simp
  · rw [save_alert_many_arr]; simp

/-- If the first `k` requests fail and request `k` yields a response that
fails schema validation, the endpoint loop stops right there: `k + 1`
requests, backoffs only for the failed requests, no record. -/
lemma collect_attempts_invalid_stops (nodeId : String)
    (b : Nat → Option RDict) (d : RDict) (hd : validate_schema d = false) :
    ∀ (k rem attempt made : Nat) (sleeps : List ℚ), k < rem →
      (∀ j, j < k → b (attempt + j) = none) → b (attempt + k) = some d →
      collect_attempts nodeId b attempt rem made sleeps =
        { data := none, requests := made + k + 1,
          sleeps := sleeps ++ (List.range k).map (fun j => (2:ℚ) ^ (attempt + j)) } := by
  intro k
  induction k with
  | zero =>
    intro rem attempt made sleeps hlt _ hsome
    match rem, hlt with
    | rem + 1, _ =>
      rw [Nat.add_zero] at hsome
      simp [collect_attempts, hsome, hd]
  | succ n ih =>
    intro rem attempt made sleeps hlt hnone hsome
    match rem, hlt with
    | rem + 1, hlt =>
      have hb0 : b attempt = none := by
        have := hnone 0 (Nat.succ_pos n); simpa using this
      have hrem : rem ≠ 0 := by omega
      have hrec := ih rem (attempt + 1) (made + 1) (sleeps ++ [(2:ℚ) ^ attempt])
        (by omega)
        (fun j hj => by
          have := hnone (j + 1) (by omega)
          simpa [Nat.add_assoc, Nat.add_comm 1 j] using this)
        (by
          have : attempt + 1 + n = attempt + (n + 1) := by omega
          rw [this]; exact hsome)
      simp only [collect_attempts, hb0, if_neg hrem]
      rw [hrec]
      refine congrArg₂ (fun r s => FetchResult.mk none r s) (by omega) ?_
      rw [List.append_assoc]
      refine congrArg (fun t => sleeps ++ t) ?_
      rw [List.range_succ_eq_map, List.map_cons, List.map_map]
      simp only [Nat.add_zero, List.singleton_append]
      refine congrArg₂ List.cons rfl (List.map_congr_left ?_)
      intro j _
      simp only [Function.comp_apply]
      congr 1
      omega

/-- Folding the per-endpoint collection accumulates exactly the successful
records, so one endpoint's failure never disturbs the others. -/
lemma foldl_append_filterMap {α : Type} (f : α → Option RDict) :
    ∀ (l : List α) (acc : List RDict),
      l.foldl (fun acc ep => collect_all_step acc (f ep)) acc
        = acc ++ l.filterMap f := by
  intro l
  induction l with
  | nil => intro acc; simp
  | cons e rest ih =>
    intro acc
    rw [List.foldl_cons]
    cases h : f e with
    | none =>
      have hfm : List.filterMap f (e :: rest) = List.filterMap f rest := by
        simp [List.filterMap_cons, h]
      rw [hfm]
      exact ih acc
    | some d =>
      have hfm : List.filterMap f (e :: rest) = d :: List.filterMap f rest := by
        simp [List.filterMap_cons, h]
      rw [hfm]
      exact (ih (acc ++ [d])).trans (by simp)

/-- C9: a schema-validation failure (missing `failed_logins`, or
`cpu_usage = 150`) discards the record without any further request attempt,
while request failures are retried up to 3 total attempts; and
`collect_from_all` is exactly the independent combination of the
per-endpoint results, so one discarded record never aborts the batch. -/
theorem C9_validation_failure_discards_without_retry :
    (∀ (nid : String) (b : Nat → Option RDict) (k : Nat) (d : RDict),
      k < 3 → (∀ j, j < k → b j = none) → b k = some d →
      validate_schema d = false →
      collect_from_endpoint nid b =
        { data := none, requests := k + 1,
          sleeps := (List.range k).map (fun j => (2:ℚ) ^ j) }) ∧
    (∀ (nid : String) (b : Nat → Option RDict),
      (∀ j, b j = none) →
      collect_from_endpoint nid b =
        { data := none, requests := 3, sleeps := [1, 2] }) ∧
    (∀ eps : List (String × (Nat → Option RDict)),
      collect_from_all eps
        = eps.filterMap (fun ep => (collect_from_endpoint ep.1 ep.2).data)) ∧
    validate_schema dMissingFailedLogins = false ∧
    validate_schema dCpu150 = false ∧
    validate_schema dGoodRemote = true := by
  refine ⟨?_, ?_, ?_, by decide, by decide, by decide⟩
  · intro nid b k d hk hnone hsome hd
    have h := collect_attempts_invalid_stops nid b d hd k 3 0 0 [] hk
      (fun j hj => by simpa using hnone j hj) (by simpa using hsome)
    simpa [collect_from_endpoint] using h
  · intro nid b hb
    simp only [collect_from_endpoint, collect_attempts, hb]
    norm_num
  · intro eps
    simpa [collect_from_all] using
      foldl_append_filterMap (fun ep => (collect_from_endpoint ep.1 ep.2).data) eps []

/-- Witness for C9: an endpoint whose first request times out and whose
second returns the out-of-range CPU body stops after exactly 2 requests
with one 1-second backoff and no record. -/
theorem C9_validation_failure_discards_without_retry_witness :
    ((1:Nat) < 3 ∧ validate_schema dCpu150 = false) ∧
    collect_from_endpoint "remote1"
        (fun j => if j = 1 then some dCpu150 else none) =
      { data := none, requests := 2, sleeps := [1] } := by
  refine ⟨⟨by norm_num, by decide⟩, ?_⟩
  have h := C9_validation_failure_discards_without_retry.1 "remote1"
    (fun j => if j = 1 then some dCpu150 else none) 1 dCpu150
    (by norm_num)
    (fun j hj => by
      have hj0 : j = 0 := by omega
      subst hj0; rfl)
    rfl
    (by decide)
  simpa using h

/-! ### Attribute-dictionary lemmas -/

/-- In-place reassignment of key `k` leaves reads of other keys alone. -/
lemma attrGet_map_set_of_ne (k : String) (v : AVal) (k' : String)
    (hne : k' ≠ k) :
    ∀ a : Attrs,
      attrGet (List.map (fun p => if p.1 = k then (k, v) else p) a) k'
        = attrGet a k' := by
  intro a
  induction a with
  | nil => rfl
  | cons hd tl ih =>
    have hne' : ¬ (k = k') := fun h => hne h.symm
    by_cases hhdk : hd.1 = k
    · have hhd : ¬ (hd.1 = k') := by rw [hhdk]; exact hne'
      simp [attrGet, List.find?_cons, hhdk, hne', hhd] at ih ⊢
      exact ih
    · by_cases hhd : hd.1 = k'
      · simp [attrGet, List.find?_cons, hhdk, hhd, hne]
      · simp [attrGet, List.find?_cons, hhdk, hhd] at ih ⊢
        exact ih

/-- In-place reassignment of a present key `k` is read back. -/
lemma attrGet_map_set_self (k : String) (v : AVal) :
    ∀ a : Attrs, (List.find? (fun p => p.1 = k) a).isSome →
      attrGet (List.map (fun p => if p.1 = k then (k, v) else p) a) k
        = some v := by
  intro a
  induction a with
  | nil => intro h; simp at h
  | cons hd tl ih =>
    intro h
    by_cases hhd : hd.1 = k
    · simp [attrGet, List.find?_cons, hhd]
    · simp only [List.find?_cons] at h
      rw [decide_eq_false hhd] at h
      simp only [List.map_cons, if_neg hhd, attrGet, List.find?_cons,
        decide_eq_false hhd]
      exact ih h

/-- Reading after a dict assignment: the assigned key reads the new value,
every other key is unchanged. -/
lemma attrGet_attrSet (a : Attrs) (k : String) (v : AVal) (k' : String) :
    attrGet (attrSet a k v) k'
      = if k' = k then some v else attrGet a k' := by
  unfold attrSet
  by_cases hfind : (List.find? (fun p => p.1 = k) a).isSome
  · rw [if_pos hfind]
    by_cases hk : k' = k
    · subst hk
      rw [if_pos rfl]
      exact attrGet_map_set_self k' v a hfind
    · rw [if_neg hk]
      exact attrGet_map_set_of_ne k v k' hk a
  · rw [if_neg hfind]
    have hnone : List.find? (fun p => decide (p.1 = k)) a = none := by
      cases hfa : List.find? (fun p => decide (p.1 = k)) a with
      | none => rfl
      | some p => rw [hfa] at hfind; simp at hfind
    by_cases hk : k' = k
    · subst hk
      rw [if_pos rfl]
      unfold attrGet
      rw [List.find?_append, hnone]
      simp [List.find?]
    · rw [if_neg hk]
      unfold attrGet
      rw [List.find?_append]
      have hkk' : ¬ (k = k') := fun h => hk h.symm
      have hone : List.find? (fun p => decide (p.1 = k')) [(k, v)] = none := by
        simp [List.find?_cons, hkk']
      cases hfa : List.find? (fun p => decide (p.1 = k')) a with
      | none => simp [hone]
      | some p => simp

/-- Reading the assigned key gives the assigned value. -/
lemma attrGet_attrSet_self (a : Attrs) (k : String) (v : AVal) :
    attrGet (attrSet a k v) k = some v := by
  rw [attrGet_attrSet, if_pos rfl]

/-- Reading a key other than the one assigned is unchanged. -/
lemma attrGet_attrSet_of_ne (a : Attrs) (k : String) (v : AVal) (k' : String)
    (hne : k' ≠ k) :
    attrGet (attrSet a k v) k' = attrGet a k' := by
  rw [attrGet_attrSet, if_neg hne]

/-- Keys never bound by the base dict nor the update are absent after
`dict.update`. -/
lemma attrGet_dictUpdate_of_notMem (upd : Attrs) (k : String)
    (hupd : ∀ p ∈ upd, p.1 ≠ k) :
    ∀ old : Attrs, attrGet (dictUpdate old upd) k = attrGet old k := by
  induction upd with
  | nil => intro old; rfl
  | cons hd tl ih =>
    intro old
    have hhd : hd.1 ≠ k := hupd hd (List.mem_cons_self hd tl)
    have htl : ∀ p ∈ tl, p.1 ≠ k := fun p hp => hupd p (List.mem_cons_of_mem hd hp)
    unfold dictUpdate
    rw [List.foldl_cons]
    have := ih htl (attrSet old hd.1 hd.2)
    unfold dictUpdate at this
    rw [this]
    exact attrGet_attrSet_of_ne old hd.1 hd.2 k (fun h => hhd h.symm)

/-- With duplicate-free update keys, every binding of the update is read
back after `dict.update`. -/
lemma attrGet_dictUpdate_of_mem (upd : Attrs) (k : String) (v : AVal)
    (hnd : (upd.map Prod.fst).Nodup) (hmem : (k, v) ∈ upd) :
    ∀ old : Attrs, attrGet (dictUpdate old upd) k = some v := by
  induction upd with
  | nil => exact absurd hmem (List.not_mem_nil _)
  | cons hd tl ih =>
    intro old
    unfold dictUpdate
    rw [List.foldl_cons]
    rcases List.mem_cons.mp hmem with heq | htl
    · subst heq
      have hknotintl : ∀ p ∈ tl, p.1 ≠ k := by
        intro p hp h
        have : k ∈ tl.map Prod.fst := h ▸ List.mem_map_of_mem Prod.fst hp
        simp only [List.map_cons, List.nodup_cons] at hnd
        exact hnd.1 this
      have := attrGet_dictUpdate_of_notMem tl k hknotintl (attrSet old k v)
      unfold dictUpdate at this
      rw [this]
      exact attrGet_attrSet_self old k v
    · have hnd' : (tl.map Prod.fst).Nodup := by
        simp only [List.map_cons, List.nodup_cons] at hnd
        exact hnd.2
      exact ih hnd' htl (attrSet old hd.1 hd.2)

/-- Replacing an existing node's attributes in place: the first matching
entry is rewritten by `f` and is the one `nodeAttrsIn` reads back. -/
lemma nodeAttrsIn_map_update (ns : List (String × Attrs)) (n : String)
    (f : Attrs → Attrs)
    (hmem : ns.any (fun p => p.1 = n)) :
    nodeAttrsIn (ns.map (fun p => if p.1 = n then (n, f p.2) else p)) n
      = f (nodeAttrsIn ns n) := by
  induction ns with
  | nil => simp at hmem
  | cons hd tl ih =>
    by_cases hhd : hd.1 = n
    · simp [nodeAttrsIn, List.find?_cons, hhd]
    · have hmem' : tl.any (fun p => p.1 = n) := by
        simp only [List.any_cons, Bool.or_eq_true, decide_eq_true_eq] at hmem
        rcases hmem with h | h
        · exact absurd h hhd
        · exact h
      simp only [List.map_cons, if_neg hhd]
      simp only [nodeAttrsIn, List.find?_cons, decide_eq_false hhd] at ih ⊢
      exact ih hmem'

/-- A dict assignment introduces no key beyond the assigned one. -/
lemma mem_attrSet_keys (a : Attrs) (k : String) (v : AVal) (p : String × AVal)
    (hp : p ∈ attrSet a k v) : p.1 ∈ a.map Prod.fst ∨ p.1 = k := by
  unfold attrSet at hp
  by_cases hfind : (List.find? (fun q => q.1 = k) a).isSome
  · rw [if_pos hfind] at hp
    rcases List.mem_map.mp hp with ⟨q, hq, hqe⟩
    by_cases hqk : q.1 = k
    · right; rw [← hqe]; simp [hqk]
    · left
      rw [← hqe]
      simp only [if_neg hqk]
      exact List.mem_map_of_mem Prod.fst hq
  · rw [if_neg hfind] at hp
    rcases List.mem_append.mp hp with h | h
    · exact Or.inl (List.mem_map_of_mem Prod.fst h)
    · right
      have : p = (k, v) := List.mem_singleton.mp h
      rw [this]

/-- `dict.update` introduces no key beyond those of its two arguments. -/
lemma mem_dictUpdate_keys (upd : Attrs) :
    ∀ (old : Attrs) (p : String × AVal), p ∈ dictUpdate old upd →
      p.1 ∈ old.map Prod.fst ∨ p.1 ∈ upd.map Prod.fst := by
  induction upd with
  | nil => intro old p hp; exact Or.inl (List.mem_map_of_mem Prod.fst hp)
  | cons hd tl ih =>
    intro old p hp
    unfold dictUpdate at hp
    rw [List.foldl_cons] at hp
    have hp' : p ∈ dictUpdate (attrSet old hd.1 hd.2) tl := hp
    rcases ih (attrSet old hd.1 hd.2) p hp' with h | h
    · rcases List.mem_map.mp h with ⟨q, hq, hqe⟩
      rcases mem_attrSet_keys old hd.1 hd.2 q hq with h2 | h2
      · exact Or.inl (hqe ▸ h2)
      · right; rw [← hqe, h2]; exact List.mem_map_of_mem Prod.fst (List.mem_cons_self hd tl)
    · right; simp only [List.map_cons]; exact List.mem_cons_of_mem hd.1 h

/-- A dict assignment keeps the key list duplicate-free. -/
lemma keys_attrSet_nodup (a : Attrs) (k : String) (v : AVal)
    (hnd : (a.map Prod.fst).Nodup) :
    ((attrSet a k v).map Prod.fst).Nodup := by
  unfold attrSet
  by_cases hfind : (List.find? (fun q => q.1 = k) a).isSome
  · rw [if_pos hfind]
    have hkeys : (List.map (fun p => if p.1 = k then ((k, v) : String × AVal) else p) a).map Prod.fst
        = a.map Prod.fst := by
      rw [List.map_map]
      refine List.map_congr_left ?_
      intro q _
      by_cases hqk : q.1 = k
      · simp [Function.comp, hqk]
      · simp [Function.comp, hqk]
    rw [hkeys]
    exact hnd
  · rw [if_neg hfind]
    rw [List.map_append]
    have hknot : k ∉ a.map Prod.fst := by
      intro hk
      rcases List.mem_map.mp hk with ⟨q, hq, hqe⟩
      have : (List.find? (fun q => q.1 = k) a).isSome := by
        rw [List.find?_isSome]
        exact ⟨q, hq, by simpa using hqe⟩
      exact hfind this
    rw [List.map_singleton, List.nodup_append]
    refine ⟨hnd, List.nodup_singleton k, ?_⟩
    intro x hx hxk
    have hxe : x = k := by simpa using hxk
    exact hknot (hxe ▸ hx)

/-- `dict.update` keeps the key list duplicate-free. -/
lemma keys_dictUpdate_nodup (upd : Attrs) :
    ∀ old : Attrs, (old.map Prod.fst).Nodup →
      ((dictUpdate old upd).map Prod.fst).Nodup := by
  induction upd with
  | nil => intro old h; exact h
  | cons hd tl ih =>
    intro old h
    unfold dictUpdate
    rw [List.foldl_cons]
    exact ih (attrSet old hd.1 hd.2) (keys_attrSet_nodup old hd.1 hd.2 h)

/-- A successful dict read certifies membership. -/
lemma attrGet_mem (a : Attrs) (k : String) (v : AVal)
    (h : attrGet a k = some v) : (k, v) ∈ a := by
  unfold attrGet at h
  cases hf : List.find? (fun p => p.1 = k) a with
  | none => rw [hf] at h; exact absurd h (by simp)
  | some q =>
    rw [hf] at h
    have hq : q ∈ a := List.mem_of_find?_eq_some hf
    have hqk : q.1 = k := by
      have := List.find?_some hf
      simpa using this
    have hqv : q.2 = v := by simpa using h
    have : q = (k, v) := Prod.ext hqk hqv
    rw [← this]
    exact hq

/-- C10: `get_log_history` and `get_alerts` return the empty sequence when
the file is missing, unparsable, or parses to a non-array JSON document;
a parsed array is returned as is. -/
theorem C10_non_array_content_silently_ignored (α : Type) :
    (∀ v : NonArrayJson,
      get_log_history (JFile.parsed (JsonDoc.jother v) : JFile α) = [] ∧
      get_alerts (JFile.parsed (JsonDoc.jother v) : JFile α) = []) ∧
    get_log_history (JFile.missing : JFile α) = [] ∧
    get_alerts (JFile.missing : JFile α) = [] ∧
    get_log_history (JFile.unparsable : JFile α) = [] ∧
    get_alerts (JFile.unparsable : JFile α) = [] ∧
    (∀ l : List α, get_log_history (JFile.parsed (JsonDoc.jarr l)) = l ∧
      get_alerts (JFile.parsed (JsonDoc.jarr l)) = l) :=
  ⟨fun _ => ⟨rfl, rfl⟩, rfl, rfl, rfl, rfl, fun _ => ⟨rfl, rfl⟩⟩

end Kaisen

namespace Kaisen

/-- The keys of the default node-attribute dict. -/
lemma defaultNodeAttrs_keys (n t : String) :
    (defaultNodeAttrs n t).map Prod.fst
      = ["node_id", "node_type", "anomaly_score", "risk_score", "metadata"] := rfl

/-- The default attribute keys are duplicate-free. -/
lemma defaultNodeAttrs_keys_nodup (n t : String) :
    ((defaultNodeAttrs n t).map Prod.fst).Nodup := by
  rw [defaultNodeAttrs_keys]
  decide

/-- The defaulted anomaly score is 0. -/
lemma defaultNodeAttrs_anomaly (n t : String) :
    attrGet (defaultNodeAttrs n t) "anomaly_score" = some (.aq 0) := rfl

/-- The defaulted risk score is 0. -/
lemma defaultNodeAttrs_risk (n t : String) :
    attrGet (defaultNodeAttrs n t) "risk_score" = some (.aq 0) := rfl

/-! ### BFS risk-propagation lemmas -/

/-- A stricter filter keeps no more elements. -/
lemma filter_length_mono {α : Type} (p q : α → Bool)
    (h : ∀ a, q a = true → p a = true) :
    ∀ l : List α, (l.filter q).length ≤ (l.filter p).length := by
  intro l
  induction l with
  | nil => simp
  | cons hd tl ih =>
    by_cases hq : q hd = true
    · rw [List.filter_cons_of_pos hq, List.filter_cons_of_pos (h hd hq)]
      simpa using ih
    · rw [List.filter_cons_of_neg (by simpa using hq)]
      by_cases hp : p hd = true
      · rw [List.filter_cons_of_pos hp]
        exact Nat.le_succ_of_le ih
      · rw [List.filter_cons_of_neg (by simpa using hp)]
        exact ih

/-- A stricter filter that misses a present element keeps strictly fewer. -/
lemma filter_length_strict {α : Type} (p q : α → Bool)
    (h : ∀ a, q a = true → p a = true) (x : α) (hx : p x = true)
    (hqx : ¬ q x = true) :
    ∀ l : List α, x ∈ l → (l.filter q).length < (l.filter p).length := by
  intro l
  induction l with
  | nil => intro hmem; simp at hmem
  | cons hd tl ih =>
    intro hmem
    rcases List.mem_cons.mp hmem with heq | htl
    · subst heq
      rw [List.filter_cons_of_pos hx, List.filter_cons_of_neg (by simpa using hqx)]
      exact Nat.lt_succ_of_le (filter_length_mono p q h tl)
    · by_cases hq : q hd = true
      · rw [List.filter_cons_of_pos hq, List.filter_cons_of_pos (h hd hq)]
        simpa using ih htl
      · rw [List.filter_cons_of_neg (by simpa using hq)]
        by_cases hp : p hd = true
        · rw [List.filter_cons_of_pos hp]
          exact Nat.lt_succ_of_lt (ih htl)
        · rw [List.filter_cons_of_neg (by simpa using hp)]
          exact ih htl

/-- The visited-filtering fold behind `newNeighbors`: the result is
duplicate-free, avoids the visited set, covers the processed elements not
already visited, and only contains processed elements or the accumulator. -/
lemma newAcc_spec (v : List String) :
    ∀ (l acc : List String), acc.Nodup → (∀ x ∈ acc, x ∉ v) →
      (List.foldl (fun acc s => if s ∈ v ∨ s ∈ acc then acc else acc ++ [s]) acc l).Nodup ∧
      (∀ x ∈ List.foldl (fun acc s => if s ∈ v ∨ s ∈ acc then acc else acc ++ [s]) acc l,
        (x ∈ acc ∨ x ∈ l) ∧ x ∉ v) ∧
      (∀ x ∈ l, x ∈ v ∨
        x ∈ List.foldl (fun acc s => if s ∈ v ∨ s ∈ acc then acc else acc ++ [s]) acc l) ∧
      (∀ x ∈ acc,
        x ∈ List.foldl (fun acc s => if s ∈ v ∨ s ∈ acc then acc else acc ++ [s]) acc l) := by
  intro l
  induction l with
  | nil =>
    intro acc hnd hav
    exact ⟨hnd, fun x hx => ⟨Or.inl hx, hav x hx⟩, fun x hx => absurd hx (List.not_mem_nil x),
      fun x hx => hx⟩
  | cons hd tl ih =>
    intro acc hnd hav
    rw [List.foldl_cons]
    by_cases hcase : hd ∈ v ∨ hd ∈ acc
    · rw [if_pos hcase]
      rcases ih acc hnd hav with ⟨h1, h2, h3, h4⟩
      refine ⟨h1, ?_, ?_, h4⟩
      · intro x hx
        rcases h2 x hx with ⟨hor, hnv⟩
        exact ⟨hor.imp id (List.mem_cons_of_mem hd), hnv⟩
      · intro x hx
        rcases List.mem_cons.mp hx with heq | htl
        · subst heq
          rcases hcase with h | h
          · exact Or.inl h
          · exact Or.inr (h4 x h)
        · exact h3 x htl
    · rw [if_neg hcase]
      push_neg at hcase
      have hnd' : (acc ++ [hd]).Nodup := by
        rw [List.nodup_append]
        exact ⟨hnd, List.nodup_singleton hd,
          fun x hx hx1 => hcase.2 ((List.mem_singleton.mp hx1) ▸ hx)⟩
      have hav' : ∀ x ∈ acc ++ [hd], x ∉ v := by
        intro x hx
        rcases List.mem_append.mp hx with h | h
        · exact hav x h
        · exact (List.mem_singleton.mp h) ▸ hcase.1
      rcases ih (acc ++ [hd]) hnd' hav' with ⟨h1, h2, h3, h4⟩
      refine ⟨h1, ?_, ?_, ?_⟩
      · intro x hx
        rcases h2 x hx with ⟨hor, hnv⟩
        refine ⟨?_, hnv⟩
        rcases hor with h | h
        · rcases List.mem_append.mp h with h0 | h0
          · exact Or.inl h0
          · exact Or.inr ((List.mem_singleton.mp h0) ▸ List.mem_cons_self hd tl)
        · exact Or.inr (List.mem_cons_of_mem hd h)
      · intro x hx
        rcases List.mem_cons.mp hx with heq | htl
        · subst heq
          exact Or.inr (h4 x (List.mem_append.mpr (Or.inr (List.mem_singleton.mpr rfl))))
        · exact h3 x htl
      · intro x hx
        exact h4 x (List.mem_append.mpr (Or.inl hx))

/-- `newNeighbors` is duplicate-free, unvisited, and drawn from the
successor list. -/
lemma newNeighbors_spec (es : List (String × String × String))
    (v : List String) (n : String) :
    (newNeighbors es v n).Nodup ∧
    (∀ x ∈ newNeighbors es v n, x ∈ successors es n ∧ x ∉ v) ∧
    (∀ x ∈ successors es n, x ∈ v ∨ x ∈ newNeighbors es v n) := by
  rcases newAcc_spec v (successors es n) [] List.nodup_nil (by intro x hx; simp at hx)
    with ⟨h1, h2, h3, _⟩
  refine ⟨h1, ?_, h3⟩
  intro x hx
  rcases h2 x hx with ⟨hor, hnv⟩
  rcases hor with h | h
  · simp at h
  · exact ⟨h, hnv⟩

/-- Successors are edge targets. -/
lemma successors_subset_targets (es : List (String × String × String))
    (n x : String) (hx : x ∈ successors es n) : x ∈ edgeTargets es := by
  unfold successors at hx
  rcases List.mem_map.mp hx with ⟨e, he, hee⟩
  exact hee ▸ List.mem_map_of_mem _ (List.mem_of_mem_filter he)

/-- Key membership as a Boolean `any`. -/
lemma anyKey_iff (ns : List (String × Attrs)) (n : String) :
    ns.any (fun p => p.1 = n) = true ↔ n ∈ ns.map Prod.fst := by
  rw [List.any_eq_true]
  constructor
  · rintro ⟨p, hp, hpe⟩
    exact (of_decide_eq_true hpe) ▸ List.mem_map_of_mem Prod.fst hp
  · intro h
    rcases List.mem_map.mp h with ⟨p, hp, hpe⟩
    exact ⟨p, hp, decide_eq_true hpe⟩

/-- A guarded in-place node rewrite preserves the key list. -/
lemma map_guard_keys (ns : List (String × Attrs)) (n : String)
    (f : Attrs → Attrs) :
    (ns.map (fun p => if p.1 = n then (p.1, f p.2) else p)).map Prod.fst
      = ns.map Prod.fst := by
  rw [List.map_map]
  refine List.map_congr_left ?_
  intro p _
  by_cases h : p.1 = n <;> simp [Function.comp, h]

/-- Reading the rewritten node (when present) applies the rewrite to its
first entry's attributes. -/
lemma nodeAttrsIn_map_guard_self (ns : List (String × Attrs)) (n : String)
    (f : Attrs → Attrs) (hmem : ns.any (fun p => p.1 = n)) :
    nodeAttrsIn (ns.map (fun p => if p.1 = n then (p.1, f p.2) else p)) n
      = f (nodeAttrsIn ns n) := by
  induction ns with
  | nil => simp at hmem
  | cons hd tl ih =>
    by_cases hhd : hd.1 = n
    · simp [nodeAttrsIn, List.find?_cons, hhd]
    · have hmem' : tl.any (fun p => p.1 = n) := by
        simp only [List.any_cons, Bool.or_eq_true, decide_eq_true_eq] at hmem
        rcases hmem with h | h
        · exact absurd h hhd
        · exact h
      simp only [List.map_cons, if_neg hhd]
      simp only [nodeAttrsIn, List.find?_cons, decide_eq_false hhd] at ih ⊢
      exact ih hmem'

/-- Reading a different node is unaffected by the guarded rewrite. -/
lemma nodeAttrsIn_map_guard_ne (ns : List (String × Attrs)) (n m : String)
    (f : Attrs → Attrs) (hne : m ≠ n) :
    nodeAttrsIn (ns.map (fun p => if p.1 = n then (p.1, f p.2) else p)) m
      = nodeAttrsIn ns m := by
  induction ns with
  | nil => rfl
  | cons hd tl ih =>
    by_cases hhd : hd.1 = m
    · have hhdn : ¬ hd.1 = n := by rw [hhd]; exact hne
      simp [nodeAttrsIn, List.find?_cons, hhd, hhdn, hne]
    · have hkd : (decide ((if hd.1 = n then (hd.1, f hd.2) else hd).1 = m)) = false := by
        by_cases hhdn : hd.1 = n
        · simp only [if_pos hhdn]
          exact decide_eq_false hhd
        · simp only [if_neg hhdn]
          exact decide_eq_false hhd
      simp only [List.map_cons, nodeAttrsIn, List.find?_cons] at ih ⊢
      simp only [hkd, decide_eq_false hhd]
      exact ih

/-- A guarded rewrite with no matching key is the identity. -/
lemma map_guard_absent (ns : List (String × Attrs)) (n : String)
    (f : Attrs → Attrs) (habs : ¬ ns.any (fun p => p.1 = n) = true) :
    ns.map (fun p => if p.1 = n then (p.1, f p.2) else p) = ns := by
  have h : ∀ p ∈ ns, ¬ p.1 = n := by
    intro p hp hpe
    exact habs (List.any_eq_true.mpr ⟨p, hp, decide_eq_true hpe⟩)
  rw [show ns.map (fun p => if p.1 = n then (p.1, f p.2) else p) = ns.map id from
    List.map_congr_left (fun p hp => by rw [if_neg (h p hp)]; rfl)]
  exact List.map_id ns

/-- `setMaxRisk` preserves the key list. -/
lemma setMaxRisk_keys (ns : List (String × Attrs)) (n : String) (v : ℚ) :
    (setMaxRisk ns n v).map Prod.fst = ns.map Prod.fst :=
  map_guard_keys ns n
    (fun a => attrSet a "risk_score" (.aq (max (getQAttr a "risk_score") v)))

/-- `setMaxRisk` on a present node maxes its risk score. -/
lemma riskIn_setMaxRisk_self (ns : List (String × Attrs)) (n : String) (v : ℚ)
    (hmem : ns.any (fun p => p.1 = n)) :
    riskIn (setMaxRisk ns n v) n = max (riskIn ns n) v := by
  have h := nodeAttrsIn_map_guard_self ns n
    (fun a => attrSet a "risk_score" (.aq (max (getQAttr a "risk_score") v))) hmem
  unfold setMaxRisk riskIn
  rw [h]
  unfold getQAttr
  rw [attrGet_attrSet_self]

/-- `setMaxRisk` leaves other nodes' risk scores alone. -/
lemma riskIn_setMaxRisk_ne (ns : List (String × Attrs)) (n m : String) (v : ℚ)
    (hne : m ≠ n) :
    riskIn (setMaxRisk ns n v) m = riskIn ns m := by
  have h := nodeAttrsIn_map_guard_ne ns n m
    (fun a => attrSet a "risk_score" (.aq (max (getQAttr a "risk_score") v))) hne
  unfold setMaxRisk riskIn
  rw [h]

/-- `setMaxRisk` on an absent node is the identity. -/
lemma setMaxRisk_absent (ns : List (String × Attrs)) (n : String) (v : ℚ)
    (habs : ¬ ns.any (fun p => p.1 = n) = true) :
    setMaxRisk ns n v = ns :=
  map_guard_absent ns n
    (fun a => attrSet a "risk_score" (.aq (max (getQAttr a "risk_score") v))) habs

/-- `setMaxRisk` never touches anomaly scores. -/
lemma anomalyIn_setMaxRisk (ns : List (String × Attrs)) (n m : String) (v : ℚ) :
    anomalyIn (setMaxRisk ns n v) m = anomalyIn ns m := by
  by_cases hne : m = n
  · subst hne
    by_cases hmem : ns.any (fun p => p.1 = m) = true
    · have h := nodeAttrsIn_map_guard_self ns m
        (fun a => attrSet a "risk_score" (.aq (max (getQAttr a "risk_score") v))) hmem
      unfold setMaxRisk anomalyIn
      rw [h]
      unfold getQAttr
      rw [attrGet_attrSet_of_ne _ _ _ _ (by decide)]
    · rw [setMaxRisk_absent ns m v hmem]
  · have h := nodeAttrsIn_map_guard_ne ns n m
      (fun a => attrSet a "risk_score" (.aq (max (getQAttr a "risk_score") v))) hne
    unfold setMaxRisk anomalyIn
    rw [h]

/-- `setMaxRisk` never decreases any risk score. -/
lemma riskIn_setMaxRisk_ge (ns : List (String × Attrs)) (n m : String) (v : ℚ) :
    riskIn ns m ≤ riskIn (setMaxRisk ns n v) m := by
  by_cases hne : m = n
  · subst hne
    by_cases hmem : ns.any (fun p => p.1 = m) = true
    · rw [riskIn_setMaxRisk_self ns m v hmem]
      exact le_max_left _ _
    · rw [setMaxRisk_absent ns m v hmem]
  · rw [riskIn_setMaxRisk_ne ns n m v hne]

/-- `applyPairs` never touches anomaly scores. -/
lemma anomalyIn_applyPairs (r d : ℚ) (m : String) :
    ∀ (ps : List (String × Nat)) (ns : List (String × Attrs)),
      anomalyIn (applyPairs r d ns ps) m = anomalyIn ns m := by
  intro ps
  induction ps with
  | nil => intro ns; rfl
  | cons hd tl ih =>
    intro ns
    unfold applyPairs at ih ⊢
    rw [List.foldl_cons, ih, anomalyIn_setMaxRisk]

/-- `applyPairs` preserves the key list. -/
lemma keys_applyPairs (r d : ℚ) :
    ∀ (ps : List (String × Nat)) (ns : List (String × Attrs)),
      (applyPairs r d ns ps).map Prod.fst = ns.map Prod.fst := by
  intro ps
  induction ps with
  | nil => intro ns; rfl
  | cons hd tl ih =>
    intro ns
    unfold applyPairs at ih ⊢
    rw [List.foldl_cons, ih, setMaxRisk_keys]

/-- `applyPairs` preserves node presence. -/
lemma any_applyPairs (r d : ℚ) (ps : List (String × Nat))
    (ns : List (String × Attrs)) (m : String)
    (h : ns.any (fun p => p.1 = m) = true) :
    (applyPairs r d ns ps).any (fun p => p.1 = m) = true := by
  rw [anyKey_iff] at h ⊢
  rw [keys_applyPairs]
  exact h

/-- Pops that never mention `m` leave `m`'s risk score unchanged. -/
lemma riskIn_applyPairs_notMem (r d : ℚ) (m : String) :
    ∀ (ps : List (String × Nat)) (ns : List (String × Attrs)),
      (∀ p ∈ ps, p.1 ≠ m) →
      riskIn (applyPairs r d ns ps) m = riskIn ns m := by
  intro ps
  induction ps with
  | nil => intro ns _; rfl
  | cons hd tl ih =>
    intro ns hnm
    unfold applyPairs at ih ⊢
    rw [List.foldl_cons,
      ih _ (fun p hp => hnm p (List.mem_cons_of_mem hd hp)),
      riskIn_setMaxRisk_ne _ _ _ _
        (fun h => hnm hd (List.mem_cons_self hd tl) h.symm)]

/-- With duplicate-free pops, a present node's risk score after
`applyPairs` is the max of its prior value and its own pop's contribution
(unchanged when it was never popped). -/
lemma riskIn_applyPairs (r d : ℚ) (m : String) :
    ∀ (ps : List (String × Nat)) (ns : List (String × Attrs)),
      (ps.map Prod.fst).Nodup →
      ns.any (fun p => p.1 = m) = true →
      riskIn (applyPairs r d ns ps) m
        = match ps.find? (fun p => p.1 = m) with
          | some p => max (riskIn ns m) (r * d ^ p.2)
          | none => riskIn ns m := by
  intro ps
  induction ps with
  | nil => intro ns _ _; rfl
  | cons hd tl ih =>
    intro ns hnd hpres
    by_cases hhd : hd.1 = m
    · have hnotl : ∀ p ∈ tl, p.1 ≠ m := by
        intro p hp he
        simp only [List.map_cons, List.nodup_cons] at hnd
        exact hnd.1 (hhd ▸ he ▸ List.mem_map_of_mem Prod.fst hp)
      unfold applyPairs
      rw [List.foldl_cons]
      have step := riskIn_applyPairs_notMem r d m tl
        (setMaxRisk ns hd.1 (r * d ^ hd.2)) hnotl
      unfold applyPairs at step
      have hfind : List.find? (fun p => decide (p.1 = m)) (hd :: tl) = some hd :=
        List.find?_cons_of_pos tl (decide_eq_true hhd)
      rw [step, hhd, riskIn_setMaxRisk_self ns m _ hpres, hfind]
    · unfold applyPairs
      rw [List.foldl_cons]
      have hnd' : (tl.map Prod.fst).Nodup := by
        simp only [List.map_cons, List.nodup_cons] at hnd
        exact hnd.2
      have hpres' : (setMaxRisk ns hd.1 (r * d ^ hd.2)).any
          (fun p => decide (p.1 = m)) = true := by
        rw [anyKey_iff, setMaxRisk_keys]
        exact (anyKey_iff ns m).mp hpres
      have step := ih (setMaxRisk ns hd.1 (r * d ^ hd.2)) hnd' hpres'
      unfold applyPairs at step
      have hfind : List.find? (fun p => decide (p.1 = m)) (hd :: tl)
          = List.find? (fun p => decide (p.1 = m)) tl :=
        List.find?_cons_of_neg tl (by simpa using hhd)
      rw [step, riskIn_setMaxRisk_ne ns hd.1 m _ (fun h => hhd h.symm), hfind]

/-- `applyPairs` never decreases any risk score. -/
lemma riskIn_applyPairs_ge (r d : ℚ) (m : String) :
    ∀ (ps : List (String × Nat)) (ns : List (String × Attrs)),
      riskIn ns m ≤ riskIn (applyPairs r d ns ps) m := by
  intro ps
  induction ps with
  | nil => intro ns; exact le_refl _
  | cons hd tl ih =>
    intro ns
    unfold applyPairs at ih ⊢
    rw [List.foldl_cons]
    exact le_trans (riskIn_setMaxRisk_ge ns hd.1 m _) (ih _)

/-- The pops accumulator only collects: the result pops are the
accumulator followed by the pops of the run started empty. -/
lemma bfsAux_pops_acc (es : List (String × String × String)) (r d : ℚ) :
    ∀ (fuel : Nat) (v : List String) (q : List (String × Nat))
      (ns : List (String × Attrs)) (pops : List (String × Nat)),
      (bfsAux es r d fuel v q ns pops).2
        = pops ++ (bfsAux es r d fuel v q ns []).2 := by
  intro fuel
  induction fuel with
  | zero => intro v q ns pops; simp [bfsAux]
  | succ fuel ih =>
    intro v q ns pops
    match q with
    | [] => simp [bfsAux]
    | (n, depth) :: queue =>
      simp only [bfsAux]
      rw [ih _ _ _ (pops ++ [(n, depth)]), ih _ _ _ ([] ++ [(n, depth)])]
      simp

/-- The node state never influences which nodes are popped: the pops are
independent of `ns`, `risk` and `decay`. -/
lemma bfsAux_pops_indep (es : List (String × String × String))
    (r d r2 d2 : ℚ) :
    ∀ (fuel : Nat) (v : List String) (q : List (String × Nat))
      (ns ns2 : List (String × Attrs)) (pops : List (String × Nat)),
      (bfsAux es r d fuel v q ns pops).2
        = (bfsAux es r2 d2 fuel v q ns2 pops).2 := by
  intro fuel
  induction fuel with
  | zero => intro v q ns ns2 pops; simp [bfsAux]
  | succ fuel ih =>
    intro v q ns ns2 pops
    match q with
    | [] => simp [bfsAux]
    | (n, depth) :: queue =>
      simp only [bfsAux]
      exact ih _ _ _ _ _

/-- The pops accumulator never influences the node state. -/
lemma bfsAux_ns_indep (es : List (String × String × String)) (r d : ℚ) :
    ∀ (fuel : Nat) (v : List String) (q : List (String × Nat))
      (ns : List (String × Attrs)) (pops : List (String × Nat)),
      (bfsAux es r d fuel v q ns pops).1
        = (bfsAux es r d fuel v q ns []).1 := by
  intro fuel
  induction fuel with
  | zero => intro v q ns pops; simp [bfsAux]
  | succ fuel ih =>
    intro v q ns pops
    match q with
    | [] => simp [bfsAux]
    | (n, depth) :: queue =>
      simp only [bfsAux]
      rw [ih _ _ _ (pops ++ [(n, depth)]), ih _ _ _ ([] ++ [(n, depth)])]

/-- The final node state of a traversal is exactly the fold of the
max-updates over its pops. -/
lemma bfsAux_state_eq_applyPairs (es : List (String × String × String))
    (r d : ℚ) :
    ∀ (fuel : Nat) (v : List String) (q : List (String × Nat))
      (ns : List (String × Attrs)),
      (bfsAux es r d fuel v q ns []).1
        = applyPairs r d ns ((bfsAux es r d fuel v q ns []).2) := by
  intro fuel
  induction fuel with
  | zero => intro v q ns; simp [bfsAux, applyPairs]
  | succ fuel ih =>
    intro v q ns
    match q with
    | [] => simp [bfsAux, applyPairs]
    | (n, depth) :: queue =>
      simp only [bfsAux]
      rw [bfsAux_ns_indep es r d fuel _ _ _ ([] ++ [(n, depth)])]
      rw [ih]
      rw [bfsAux_pops_acc es r d fuel _ _ _ ([] ++ [(n, depth)])]
      unfold applyPairs
      rw [List.nil_append, List.singleton_append, List.foldl_cons]

/-- Extending the visited set by the freshly enqueued (distinct, unvisited)
targets shrinks the unvisited-target count by at least their number. -/
lemma unvis_after_new (es : List (String × String × String)) :
    ∀ (new v : List String), new.Nodup →
      (∀ x ∈ new, x ∈ edgeTargets es ∧ x ∉ v) →
      ((edgeTargets es).filter (fun t => ¬ t ∈ v ++ new)).length + new.length
        ≤ ((edgeTargets es).filter (fun t => ¬ t ∈ v)).length := by
  intro new
  induction new with
  | nil =>
    intro v _ _
    have : ∀ t ∈ edgeTargets es,
        (decide (¬ t ∈ v ++ ([] : List String))) = (decide (¬ t ∈ v)) := by
      intro t _
      simp
    rw [List.filter_congr this]
    simp
  | cons x rest ih =>
    intro v hnd hcond
    have hxprop := hcond x (List.mem_cons_self x rest)
    have hnd' : rest.Nodup := (List.nodup_cons.mp hnd).2
    have hxrest : x ∉ rest := (List.nodup_cons.mp hnd).1
    have hcond' : ∀ y ∈ rest, y ∈ edgeTargets es ∧ y ∉ v ++ [x] := by
      intro y hy
      rcases hcond y (List.mem_cons_of_mem x hy) with ⟨ht, hv⟩
      refine ⟨ht, ?_⟩
      intro hmem
      rcases List.mem_append.mp hmem with h | h
      · exact hv h
      · exact hxrest ((List.mem_singleton.mp h) ▸ hy)
    have hsame : ∀ t ∈ edgeTargets es,
        (decide (¬ t ∈ v ++ (x :: rest))) = (decide (¬ t ∈ (v ++ [x]) ++ rest)) := by
      intro t _
      have hiff : (t ∈ v ++ (x :: rest)) ↔ (t ∈ (v ++ [x]) ++ rest) := by
        simp [List.mem_append, List.mem_cons, or_assoc]
      rw [decide_eq_decide]
      exact not_congr hiff
    rw [List.filter_congr hsame]
    have hstrict : ((edgeTargets es).filter (fun t => ¬ t ∈ v ++ [x])).length
        < ((edgeTargets es).filter (fun t => ¬ t ∈ v)).length := by
      refine filter_length_strict _ _ ?_ x ?_ ?_ (edgeTargets es) hxprop.1
      · intro a ha
        have h1 : ¬ a ∈ v ++ [x] := of_decide_eq_true ha
        exact decide_eq_true (fun hc => h1 (List.mem_append.mpr (Or.inl hc)))
      · exact decide_eq_true hxprop.2
      · intro hc
        exact (of_decide_eq_true hc) (List.mem_append.mpr
          (Or.inr (List.mem_singleton.mpr rfl)))
    have hih := ih (v ++ [x]) hnd' hcond'
    simp only [List.length_cons]
    omega

/-- One sufficient unit of fuel is as good as one more: the traversal's
result stabilizes once the fuel covers the queue plus the unvisited
targets — this is exactly why the Python `while queue` loop terminates,
also on cyclic graphs. -/
lemma bfsAux_fuel_stable (es : List (String × String × String)) (r d : ℚ) :
    ∀ (fuel : Nat) (v : List String) (q : List (String × Nat))
      (ns : List (String × Attrs)) (pops : List (String × Nat)),
      bfsBound es v q ≤ fuel →
      bfsAux es r d (fuel + 1) v q ns pops = bfsAux es r d fuel v q ns pops := by
  intro fuel
  induction fuel with
  | zero =>
    intro v q ns pops hb
    unfold bfsBound at hb
    have hq : q = [] := List.eq_nil_of_length_eq_zero (by omega)
    subst hq
    simp [bfsAux]
  | succ fuel ih =>
    intro v q ns pops hb
    match q with
    | [] => simp [bfsAux]
    | (n, depth) :: queue =>
      simp only [bfsAux]
      apply ih
      rcases newNeighbors_spec es v n with ⟨hnd, hprop, _⟩
      have hshrink := unvis_after_new es (newNeighbors es v n) v hnd
        (fun x hx => ⟨successors_subset_targets es n x (hprop x hx).1,
          (hprop x hx).2⟩)
      unfold bfsBound at hb ⊢
      simp only [List.length_append, List.length_map, List.length_cons] at hb ⊢
      omega

/-- More than sufficient fuel changes nothing. -/
lemma bfsAux_fuel_stable_add (es : List (String × String × String)) (r d : ℚ)
    (fuel : Nat) (v : List String) (q : List (String × Nat))
    (ns : List (String × Attrs)) (pops : List (String × Nat))
    (hb : bfsBound es v q ≤ fuel) :
    ∀ extra : Nat,
      bfsAux es r d (fuel + extra) v q ns pops = bfsAux es r d fuel v q ns pops := by
  intro extra
  induction extra with
  | zero => rfl
  | succ e ihe =>
    have : fuel + (e + 1) = (fuel + e) + 1 := by omega
    rw [this, bfsAux_fuel_stable es r d (fuel + e) v q ns pops (by omega), ihe]

/-- Within one traversal no node is popped twice: the popped keys are
duplicate-free. -/
lemma bfsAux_pops_nodup (es : List (String × String × String)) (r d : ℚ) :
    ∀ (fuel : Nat) (v : List String) (q : List (String × Nat))
      (ns : List (String × Attrs)) (pops : List (String × Nat)),
      (pops.map Prod.fst ++ q.map Prod.fst).Nodup →
      (∀ x ∈ pops.map Prod.fst, x ∈ v) →
      (∀ x ∈ q.map Prod.fst, x ∈ v) →
      (((bfsAux es r d fuel v q ns pops).2).map Prod.fst).Nodup := by
  intro fuel
  induction fuel with
  | zero =>
    intro v q ns pops hnd _ _
    exact (List.nodup_append.mp hnd).1
  | succ fuel ih =>
    intro v q ns pops hnd hpv hqv
    match q with
    | [] =>
      simp only [bfsAux]
      simpa using (List.nodup_append.mp hnd).1
    | (n, depth) :: queue =>
      simp only [bfsAux]
      rcases newNeighbors_spec es v n with ⟨hndnew, hnewprop, _⟩
      apply ih
      · -- (pops ++ [(n,depth)]) keys ++ (queue ++ new) keys nodup
        have heq : (pops ++ [(n, depth)]).map Prod.fst
            ++ (queue ++ (newNeighbors es v n).map (fun m => (m, depth + 1))).map Prod.fst
            = (pops.map Prod.fst ++ n :: queue.map Prod.fst)
              ++ newNeighbors es v n := by
          simp only [List.map_append, List.map_map, List.map_cons, List.map_nil,
            List.append_assoc, List.singleton_append]
          rw [show (Prod.fst ∘ fun m : String => (m, depth + 1))
            = (id : String → String) from rfl]
          rw [List.map_id]
          simp
        rw [heq, List.nodup_append]
        refine ⟨by simpa using hnd, hndnew, ?_⟩
        intro x hx hxnew
        have hxv : x ∈ v := by
          rcases List.mem_append.mp hx with h | h
          · exact hpv x h
          · rcases List.mem_cons.mp h with h0 | h0
            · exact h0 ▸ hqv n (by simp)
            · exact hqv x (by simp [h0])
        exact (hnewprop x hxnew).2 hxv
      · intro x hx
        simp only [List.map_append] at hx
        rcases List.mem_append.mp hx with h | h
        · exact List.mem_append.mpr (Or.inl (hpv x h))
        · have hxn : x = n := by simpa using h
          rw [hxn]
          exact List.mem_append.mpr (Or.inl (hqv n (by simp)))
      · intro x hx
        simp only [List.map_append, List.map_map] at hx
        rcases List.mem_append.mp hx with h | h
        · exact List.mem_append.mpr (Or.inl (hqv x (by simp [h])))
        · have : x ∈ newNeighbors es v n := by simpa [Function.comp] using h
          exact List.mem_append.mpr (Or.inr this)

/-- Everything the traversal pops satisfies any successor-closed predicate
holding on the queue: BFS is sound for reachability. -/
lemma bfsAux_pops_sound (es : List (String × String × String)) (r d : ℚ)
    (R : String → Prop)
    (hstep : ∀ m x, R m → x ∈ successors es m → R x) :
    ∀ (fuel : Nat) (v : List String) (q : List (String × Nat))
      (ns : List (String × Attrs)) (pops : List (String × Nat)),
      (∀ x ∈ q.map Prod.fst, R x) → (∀ x ∈ pops.map Prod.fst, R x) →
      ∀ x ∈ ((bfsAux es r d fuel v q ns pops).2).map Prod.fst, R x := by
  intro fuel
  induction fuel with
  | zero =>
    intro v q ns pops _ hpops x hx
    exact hpops x hx
  | succ fuel ih =>
    intro v q ns pops hq hpops x hx
    match q with
    | [] =>
      simp only [bfsAux] at hx
      exact hpops x hx
    | (n, depth) :: queue =>
      simp only [bfsAux] at hx
      have hRn : R n := hq n (by simp)
      refine ih _ _ _ _ ?_ ?_ x hx
      · intro y hy
        simp only [List.map_append, List.map_map] at hy
        rcases List.mem_append.mp hy with h | h
        · exact hq y (by simp [h])
        · have hynew : y ∈ newNeighbors es v n := by
            simpa [Function.comp] using h
          exact hstep n y hRn ((newNeighbors_spec es v n).2.1 y hynew).1
      · intro y hy
        simp only [List.map_append] at hy
        rcases List.mem_append.mp hy with h | h
        · exact hpops y h
        · have hyn : y = n := by simpa using h
          exact hyn ▸ hRn

/-- With sufficient fuel, every visited node ends up popped, and the
popped set is closed under successors: BFS is complete for
reachability. -/
lemma bfsAux_pops_complete (es : List (String × String × String)) (r d : ℚ) :
    ∀ (fuel : Nat) (v : List String) (q : List (String × Nat))
      (ns : List (String × Attrs)) (pops : List (String × Nat)),
      bfsBound es v q ≤ fuel →
      (∀ x ∈ v, x ∈ pops.map Prod.fst ∨ x ∈ q.map Prod.fst) →
      (∀ m ∈ pops.map Prod.fst, ∀ y ∈ successors es m, y ∈ v) →
      (∀ x ∈ v, x ∈ ((bfsAux es r d fuel v q ns pops).2).map Prod.fst) ∧
      (∀ m ∈ ((bfsAux es r d fuel v q ns pops).2).map Prod.fst,
        ∀ y ∈ successors es m,
          y ∈ ((bfsAux es r d fuel v q ns pops).2).map Prod.fst) := by
  intro fuel
  induction fuel with
  | zero =>
    intro v q ns pops hb h1 h2
    unfold bfsBound at hb
    have hq : q = [] := List.eq_nil_of_length_eq_zero (by omega)
    subst hq
    simp only [bfsAux]
    constructor
    · intro x hx
      rcases h1 x hx with h | h
      · exact h
      · simp at h
    · intro m hm y hy
      have hyv : y ∈ v := h2 m hm y hy
      rcases h1 y hyv with h | h
      · exact h
      · simp at h
  | succ fuel ih =>
    intro v q ns pops hb h1 h2
    match q with
    | [] =>
      simp only [bfsAux]
      constructor
      · intro x hx
        rcases h1 x hx with h | h
        · exact h
        · simp at h
      · intro m hm y hy
        have hyv : y ∈ v := h2 m hm y hy
        rcases h1 y hyv with h | h
        · exact h
        · simp at h
    | (n, depth) :: queue =>
      simp only [bfsAux]
      rcases newNeighbors_spec es v n with ⟨hndnew, hnewprop, hcover⟩
      have hb' : bfsBound es (v ++ newNeighbors es v n)
          (queue ++ (newNeighbors es v n).map (fun m => (m, depth + 1))) ≤ fuel := by
        have hshrink := unvis_after_new es (newNeighbors es v n) v hndnew
          (fun x hx => ⟨successors_subset_targets es n x (hnewprop x hx).1,
            (hnewprop x hx).2⟩)
        unfold bfsBound at hb ⊢
        simp only [List.length_append, List.length_map, List.length_cons] at hb ⊢
        omega
      have h1' : ∀ x ∈ v ++ newNeighbors es v n,
          x ∈ (pops ++ [(n, depth)]).map Prod.fst ∨
          x ∈ (queue ++ (newNeighbors es v n).map (fun m => (m, depth + 1))).map
            Prod.fst := by
        intro x hx
        simp only [List.map_append, List.map_map, List.mem_append]
        rcases List.mem_append.mp hx with h | h
        · rcases h1 x h with h0 | h0
          · exact Or.inl (Or.inl h0)
          · simp only [List.map_cons, List.mem_cons] at h0
            rcases h0 with he | he
            · exact Or.inl (Or.inr (by simp [he]))
            · exact Or.inr (Or.inl he)
        · refine Or.inr (Or.inr ?_)
          simpa [Function.comp] using h
      have h2' : ∀ m ∈ (pops ++ [(n, depth)]).map Prod.fst,
          ∀ y ∈ successors es m, y ∈ v ++ newNeighbors es v n := by
        intro m hm y hy
        simp only [List.map_append, List.mem_append] at hm
        rcases hm with h | h
        · exact List.mem_append.mpr (Or.inl (h2 m h y hy))
        · have hmn : m = n := by simpa using h
          subst hmn
          rcases hcover y hy with h0 | h0
          · exact List.mem_append.mpr (Or.inl h0)
          · exact List.mem_append.mpr (Or.inr h0)
      rcases ih _ _ (setMaxRisk ns n (r * d ^ depth)) _ hb' h1' h2'
        with ⟨ha, hb2⟩
      exact ⟨fun x hx => ha x (List.mem_append.mpr (Or.inl hx)), hb2⟩

/-- The visit record of a traversal from `s` pops exactly the nodes
reachable from `s`. -/
lemma bfsPairs_iff_reaches (es : List (String × String × String))
    (s n : String) :
    (∃ k, (n, k) ∈ bfsPairs es s) ↔ ReachesE es s n := by
  have hkey : ∀ m, (∃ k, (m, k) ∈ bfsPairs es s) ↔
      m ∈ (bfsPairs es s).map Prod.fst := by
    intro m
    constructor
    · rintro ⟨k, hk⟩
      exact List.mem_map_of_mem Prod.fst hk
    · intro h
      rcases List.mem_map.mp h with ⟨p, hp, hpe⟩
      exact ⟨p.2, by rw [← hpe]; exact hp⟩
  rw [hkey n]
  constructor
  · intro h
    refine bfsAux_pops_sound es 0 0 (ReachesE es s)
      (fun m x hm hx => ReachesE.step m x hm hx)
      (1 + (edgeTargets es).length) [s] [(s, 0)] [] [] ?_ ?_ n h
    · intro x hx
      have : x = s := by simpa using hx
      exact this ▸ ReachesE.refl
    · intro x hx
      simp at hx
  · intro h
    have hbound : bfsBound es [s] [(s, 0)] ≤ 1 + (edgeTargets es).length := by
      unfold bfsBound
      have := List.length_filter_le (fun t => decide (¬ t ∈ [s])) (edgeTargets es)
      simp only [List.length_cons, List.length_nil]
      omega
    rcases bfsAux_pops_complete es 0 0 (1 + (edgeTargets es).length)
      [s] [(s, 0)] [] [] hbound
      (by intro x hx
          have : x = s := by simpa using hx
          exact Or.inr (by simp [this]))
      (by intro m hm; simp at hm)
      with ⟨ha, hc⟩
    induction h with
    | refl => exact ha s (by simp)
    | step m x hm hx ihm => exact hc m ihm x hx

/-- Folding the per-source traversals: each node's final risk score is the
fold of its per-source max-contributions, read at the depth of its pop in
that source's visit record. -/
lemma riskIn_propagate_fold (g : Graph) (d : ℚ) (n : String)
    (hn : n ∈ g.nodes.map Prod.fst) :
    ∀ (srcs : List String) (ns : List (String × Attrs)),
      ns.map Prod.fst = g.nodes.map Prod.fst →
      (∀ m, anomalyIn ns m = anomalyIn g.nodes m) →
      riskIn (srcs.foldl (fun ns source =>
          (bfsFrom g.edges (getQAttr (nodeAttrsIn ns source) "anomaly_score")
            d source ns).1) ns) n
        = srcs.foldl (fun acc s =>
            match (bfsPairs g.edges s).find? (fun p => p.1 = n) with
            | some p => max acc (anomalyIn g.nodes s * d ^ p.2)
            | none => acc) (riskIn ns n) := by
  intro srcs
  induction srcs with
  | nil => intro ns _ _; rfl
  | cons s rest ih =>
    intro ns hkeys hanom
    rw [List.foldl_cons, List.foldl_cons]
    have hr : getQAttr (nodeAttrsIn ns s) "anomaly_score"
        = anomalyIn g.nodes s := hanom s
    have hpairs : (bfsAux g.edges (getQAttr (nodeAttrsIn ns s) "anomaly_score")
        d (1 + (edgeTargets g.edges).length) [s] [(s, 0)] ns []).2
          = bfsPairs g.edges s := by
      unfold bfsPairs
      exact bfsAux_pops_indep g.edges _ d 0 0 _ [s] [(s, 0)] ns [] []
    have hstate : (bfsFrom g.edges
        (getQAttr (nodeAttrsIn ns s) "anomaly_score") d s ns).1
          = applyPairs (anomalyIn g.nodes s) d ns (bfsPairs g.edges s) := by
      unfold bfsFrom
      rw [bfsAux_state_eq_applyPairs, hpairs, hr]
    have hnd : ((bfsPairs g.edges s).map Prod.fst).Nodup := by
      unfold bfsPairs
      apply bfsAux_pops_nodup
      · simp
      · intro x hx; simp at hx
      · intro x hx
        simp at hx
        simp [hx]
    have hpres : ns.any (fun p => p.1 = n) = true := by
      rw [anyKey_iff, hkeys]
      exact hn
    rw [hstate]
    have hkeys' : (applyPairs (anomalyIn g.nodes s) d ns
        (bfsPairs g.edges s)).map Prod.fst = g.nodes.map Prod.fst := by
      rw [keys_applyPairs]
      exact hkeys
    have hanom' : ∀ m, anomalyIn (applyPairs (anomalyIn g.nodes s) d ns
        (bfsPairs g.edges s)) m = anomalyIn g.nodes m := by
      intro m
      rw [anomalyIn_applyPairs]
      exact hanom m
    rw [ih _ hkeys' hanom']
    rw [riskIn_applyPairs _ d n (bfsPairs g.edges s) ns hnd hpres]

/-- Risk propagation never decreases a risk score. -/
lemma riskIn_propagate_mono (g : Graph) (d : ℚ) (n : String) :
    ∀ (srcs : List String) (ns : List (String × Attrs)),
      riskIn ns n ≤ riskIn (srcs.foldl (fun ns source =>
        (bfsFrom g.edges (getQAttr (nodeAttrsIn ns source) "anomaly_score")
          d source ns).1) ns) n := by
  intro srcs
  induction srcs with
  | nil => intro ns; exact le_refl _
  | cons s rest ih =>
    intro ns
    rw [List.foldl_cons]
    refine le_trans ?_ (ih _)
    unfold bfsFrom
    rw [bfsAux_state_eq_applyPairs]
    exact riskIn_applyPairs_ge _ d n _ ns

/-! ### Highest-risk-path fold lemmas -/

/-- The two outcomes of one best-path update. -/
lemma betterPath_cases (g : Graph) (best : List String × ℚ)
    (q : List String) :
    (betterPath g best q = (q, path_score g q) ∧
      (path_score g q > best.2 ∨
        (path_score g q = best.2 ∧ q.length < best.1.length))) ∨
    (betterPath g best q = best ∧
      ¬ (path_score g q > best.2 ∨
        (path_score g q = best.2 ∧ q.length < best.1.length))) := by
  by_cases hcond : path_score g q > best.2 ∨
      (path_score g q = best.2 ∧ q.length < best.1.length)
  · left
    exact ⟨by simp [betterPath, hcond], hcond⟩
  · right
    exact ⟨by simp [betterPath, hcond], hcond⟩

/-- Full specification of the best-path fold: the running score always
belongs to the running path; the fold is monotone in score; the result is
the initial best or one of the candidates; every candidate's score is
dominated; and on equal final score the result is no longer than the
initial best or any equal-scoring candidate. -/
lemma betterPath_foldl_spec (g : Graph) :
    ∀ (cands : List (List String)) (best : List String × ℚ),
      best.2 = path_score g best.1 →
      ((cands.foldl (betterPath g) best).2
          = path_score g (cands.foldl (betterPath g) best).1) ∧
      best.2 ≤ (cands.foldl (betterPath g) best).2 ∧
      ((cands.foldl (betterPath g) best).1 = best.1 ∨
        (cands.foldl (betterPath g) best).1 ∈ cands) ∧
      (∀ p ∈ cands, path_score g p ≤ (cands.foldl (betterPath g) best).2) ∧
      ((cands.foldl (betterPath g) best).2 = best.2 →
        (cands.foldl (betterPath g) best).1.length ≤ best.1.length) ∧
      (∀ p ∈ cands, path_score g p = (cands.foldl (betterPath g) best).2 →
        (cands.foldl (betterPath g) best).1.length ≤ p.length) := by
  intro cands
  induction cands with
  | nil =>
    intro best hb
    refine ⟨hb, le_refl _, Or.inl rfl, ?_, fun _ => le_refl _, ?_⟩
    · intro p hp; simp at hp
    · intro p hp; simp at hp
  | cons q rest ih =>
    intro best hb
    rw [List.foldl_cons]
    rcases betterPath_cases g best q with ⟨hbeq, hcond⟩ | ⟨hbeq, hcond⟩
    · -- the candidate was adopted
      rw [hbeq]
      rcases ih (q, path_score g q) rfl with ⟨c1, c2, c3, c4, c5, c7⟩
      have hbb : best.2 ≤ path_score g q := by
        rcases hcond with h | h
        · exact le_of_lt h
        · exact le_of_eq h.1.symm
      refine ⟨c1, le_trans hbb c2, ?_, ?_, ?_, ?_⟩
      · rcases c3 with h | h
        · exact Or.inr (by rw [h]; exact List.mem_cons_self q rest)
        · exact Or.inr (List.mem_cons_of_mem q h)
      · intro p hp
        rcases List.mem_cons.mp hp with he | he
        · subst he
          exact c2
        · exact c4 p he
      · intro hr2
        rcases hcond with h | h
        · exact absurd hr2 (ne_of_gt (lt_of_lt_of_le h c2))
        · have h2 : (rest.foldl (betterPath g) (q, path_score g q)).2
              = (q, path_score g q).2 := by
            rw [hr2, h.1]
          exact le_trans (c5 h2) (le_of_lt h.2)
      · intro p hp hpeq
        rcases List.mem_cons.mp hp with he | he
        · subst he
          exact c5 hpeq.symm
        · exact c7 p he hpeq
    · -- the candidate was rejected
      rw [hbeq]
      rcases ih best hb with ⟨c1, c2, c3, c4, c5, c7⟩
      push_neg at hcond
      have hqle : path_score g q ≤ best.2 := hcond.1
      refine ⟨c1, c2, ?_, ?_, c5, ?_⟩
      · rcases c3 with h | h
        · exact Or.inl h
        · exact Or.inr (List.mem_cons_of_mem q h)
      · intro p hp
        rcases List.mem_cons.mp hp with he | he
        · subst he
          exact le_trans hqle c2
        · exact c4 p he
      · intro p hp hpeq
        rcases List.mem_cons.mp hp with he | he
        · subst he
          rcases lt_or_eq_of_le hqle with hlt | heq
          · exact absurd (hpeq ▸ c2) (not_le.mpr hlt)
          · have hlen := hcond.2 heq
            exact le_trans (c5 (by rw [← hpeq, heq])) hlen
        · exact c7 p he hpeq

/-- C6 counterexample: a machine node whose anomaly score was set to 0.5 is
re-added with an attribute map naming only `timestamp`; its anomaly score
is reset to 0 instead of keeping 0.5, because `add_node` re-supplies the
five default-initialized keys on every call. -/
theorem C6_counterexample_re_add_resets_scores :
    anomaly_score gReAdd2 "n" = mkRat 1 2 ∧
    (add_node gReAdd2 "n" "machine" [("timestamp", .astr "t")]).toOption
      = some gReAdd3 ∧
    anomaly_score gReAdd3 "n" = 0 ∧
    ¬ anomaly_score gReAdd3 "n" = mkRat 1 2 := by
  refine ⟨by decide, by decide, by decide, by decide⟩

/-- C6 (amended): re-adding an existing node merges the supplied attributes
together with the freshly defaulted five keys: attributes outside both are
retained, the supplied attributes win, and `anomaly_score` / `risk_score`
are reset to 0 whenever the supplied map does not name them. -/
theorem C6_amended_add_node_merge_semantics (g : Graph) (n t : String)
    (attrs : Attrs) (ht : t ∈ NODE_TYPES)
    (hn : g.nodes.any (fun p => p.1 = n)) :
    ∃ g', add_node g n t attrs = .ok g' ∧
      nodeAttrsIn g'.nodes n
        = dictUpdate (nodeAttrsIn g.nodes n)
            (dictUpdate (defaultNodeAttrs n t) attrs) ∧
      (∀ k, k ∉ (defaultNodeAttrs n t).map Prod.fst →
        (∀ p ∈ attrs, p.1 ≠ k) →
        attrGet (nodeAttrsIn g'.nodes n) k
          = attrGet (nodeAttrsIn g.nodes n) k) ∧
      ((∀ p ∈ attrs, p.1 ≠ "anomaly_score") →
        attrGet (nodeAttrsIn g'.nodes n) "anomaly_score" = some (.aq 0)) ∧
      ((∀ p ∈ attrs, p.1 ≠ "risk_score") →
        attrGet (nodeAttrsIn g'.nodes n) "risk_score" = some (.aq 0)) ∧
      (∀ k v, (attrs.map Prod.fst).Nodup → (k, v) ∈ attrs →
        attrGet (nodeAttrsIn g'.nodes n) k = some v) := by
  have hfind : (List.find? (fun p => p.1 = n) g.nodes).isSome := by
    rw [List.find?_isSome]
    rcases List.any_eq_true.mp hn with ⟨p, hp, hpe⟩
    exact ⟨p, hp, hpe⟩
  have hok : add_node g n t attrs
      = .ok (nxAddNode g n (dictUpdate (defaultNodeAttrs n t) attrs)) := by
    unfold add_node
    rw [if_pos ht]
  have hset : nodeAttrsIn
        (nxAddNode g n (dictUpdate (defaultNodeAttrs n t) attrs)).nodes n
      = dictUpdate (nodeAttrsIn g.nodes n)
          (dictUpdate (defaultNodeAttrs n t) attrs) := by
    unfold nxAddNode
    rw [if_pos hfind]
    exact nodeAttrsIn_map_update g.nodes n
      (fun a => dictUpdate a (dictUpdate (defaultNodeAttrs n t) attrs)) hn
  refine ⟨_, hok, hset, ?_, ?_, ?_, ?_⟩
  · -- keys outside the defaults and the supplied attributes are retained
    intro k hkdef hkattrs
    rw [hset]
    apply attrGet_dictUpdate_of_notMem
    intro p hp hpk
    rcases mem_dictUpdate_keys attrs (defaultNodeAttrs n t) p hp with h | h
    · exact hkdef (hpk ▸ h)
    · rcases List.mem_map.mp h with ⟨q, hq, hqe⟩
      exact hkattrs q hq (hqe.trans hpk)
  · -- anomaly_score not supplied: reset to the default 0
    intro hnotsup
    rw [hset]
    have hD : attrGet (dictUpdate (defaultNodeAttrs n t) attrs) "anomaly_score"
        = some (.aq 0) := by
      rw [attrGet_dictUpdate_of_notMem attrs _ hnotsup]
      exact defaultNodeAttrs_anomaly n t
    exact attrGet_dictUpdate_of_mem _ _ _
      (keys_dictUpdate_nodup attrs (defaultNodeAttrs n t)
        (defaultNodeAttrs_keys_nodup n t))
      (attrGet_mem _ _ _ hD) _
  · -- risk_score not supplied: reset to the default 0
    intro hnotsup
    rw [hset]
    have hD : attrGet (dictUpdate (defaultNodeAttrs n t) attrs) "risk_score"
        = some (.aq 0) := by
      rw [attrGet_dictUpdate_of_notMem attrs _ hnotsup]
      exact defaultNodeAttrs_risk n t
    exact attrGet_dictUpdate_of_mem _ _ _
      (keys_dictUpdate_nodup attrs (defaultNodeAttrs n t)
        (defaultNodeAttrs_keys_nodup n t))
      (attrGet_mem _ _ _ hD) _
  · -- supplied attributes win
    intro k v hnd hmem
    rw [hset]
    have hD : attrGet (dictUpdate (defaultNodeAttrs n t) attrs) k = some v :=
      attrGet_dictUpdate_of_mem attrs k v hnd hmem _
    exact attrGet_dictUpdate_of_mem _ _ _
      (keys_dictUpdate_nodup attrs (defaultNodeAttrs n t)
        (defaultNodeAttrs_keys_nodup n t))
      (attrGet_mem _ _ _ hD) _

/-- Witness for C6 (amended) at the concrete re-added node. -/
theorem C6_amended_add_node_merge_semantics_witness :
    ("machine" ∈ NODE_TYPES ∧
      gReAdd2.nodes.any (fun p => p.1 = "n")) ∧
    ∃ g', add_node gReAdd2 "n" "machine" [("timestamp", .astr "t")]
        = .ok g' ∧
      nodeAttrsIn g'.nodes "n"
        = dictUpdate (nodeAttrsIn gReAdd2.nodes "n")
            (dictUpdate (defaultNodeAttrs "n" "machine")
              [("timestamp", .astr "t")]) ∧
      (∀ k, k ∉ (defaultNodeAttrs "n" "machine").map Prod.fst →
        (∀ p ∈ ([("timestamp", .astr "t")] : Attrs), p.1 ≠ k) →
        attrGet (nodeAttrsIn g'.nodes "n") k
          = attrGet (nodeAttrsIn gReAdd2.nodes "n") k) ∧
      ((∀ p ∈ ([("timestamp", .astr "t")] : Attrs), p.1 ≠ "anomaly_score") →
        attrGet (nodeAttrsIn g'.nodes "n") "anomaly_score" = some (.aq 0)) ∧
      ((∀ p ∈ ([("timestamp", .astr "t")] : Attrs), p.1 ≠ "risk_score") →
        attrGet (nodeAttrsIn g'.nodes "n") "risk_score" = some (.aq 0)) ∧
      (∀ k v, (([("timestamp", .astr "t")] : Attrs).map Prod.fst).Nodup →
        (k, v) ∈ ([("timestamp", .astr "t")] : Attrs) →
        attrGet (nodeAttrsIn g'.nodes "n") k = some v) :=
  ⟨⟨by decide, by decide⟩,
    C6_amended_add_node_merge_semantics gReAdd2 "n" "machine"
      [("timestamp", .astr "t")] (by decide) (by decide)⟩

end Kaisen

namespace Kaisen

/-- C3: after one `propagate_risk` pass with decay `d`, every node's risk
score is the maximum of its previous value and, over the anomaly-positive
sources, the source's anomaly score times `d` to the depth at which the
node was first visited in that source's BFS; a traversal visits exactly
the reachable nodes, pops no node twice, and stabilizes at the fuel bound
(so the loop terminates on cyclic graphs); no risk score ever decreases;
and on the 0.9-anomaly 2-hop chain with decay 0.7 the risk scores are
exactly 0.9, 0.63 and 0.441. -/
theorem C3_propagate_risk_bfs_decay (g : Graph) (d : ℚ) :
    (∀ n, n ∈ g.nodes.map Prod.fst →
      risk_score (propagate_risk g d) n
        = (high_risk_nodes g).foldl (fun acc s =>
            match (bfsPairs g.edges s).find? (fun p => p.1 = n) with
            | some p => max acc (anomaly_score g s * d ^ p.2)
            | none => acc) (risk_score g n)) ∧
    (∀ s n, (∃ k, (n, k) ∈ bfsPairs g.edges s) ↔ ReachesE g.edges s n) ∧
    (∀ s, ((bfsPairs g.edges s).map Prod.fst).Nodup) ∧
    (∀ (r dd : ℚ) (s : String) (ns : List (String × Attrs)) (extra : Nat),
      bfsAux g.edges r dd (1 + (edgeTargets g.edges).length + extra)
          [s] [(s, 0)] ns []
        = bfsAux g.edges r dd (1 + (edgeTargets g.edges).length)
            [s] [(s, 0)] ns []) ∧
    (∀ n, risk_score g n ≤ risk_score (propagate_risk g d) n) ∧
    (risk_score (propagate_risk gChain (7/10)) "A" = 9/10 ∧
      risk_score (propagate_risk gChain (7/10)) "B" = 63/100 ∧
      risk_score (propagate_risk gChain (7/10)) "C" = 441/1000) := by
  have hi : ∀ (g0 : Graph) (d0 : ℚ) (n : String), n ∈ g0.nodes.map Prod.fst →
      risk_score (propagate_risk g0 d0) n
        = (high_risk_nodes g0).foldl (fun acc s =>
            match (bfsPairs g0.edges s).find? (fun p => p.1 = n) with
            | some p => max acc (anomaly_score g0 s * d0 ^ p.2)
            | none => acc) (risk_score g0 n) := by
    intro g0 d0 n hn
    exact riskIn_propagate_fold g0 d0 n hn (high_risk_nodes g0) g0.nodes rfl
      (fun m => rfl)
  refine ⟨hi g d, ?_, ?_, ?_, ?_, ?_, ?_, ?_⟩
  · intro s n
    exact bfsPairs_iff_reaches g.edges s n
  · intro s
    unfold bfsPairs
    apply bfsAux_pops_nodup
    · simp
    · intro x hx; simp at hx
    · intro x hx
      simp at hx
      simp [hx]
  · intro r dd s ns extra
    apply bfsAux_fuel_stable_add
    unfold bfsBound
    have := List.length_filter_le (fun t => decide (¬ t ∈ [s]))
      (edgeTargets g.edges)
    simp only [List.length_cons, List.length_nil]
    omega
  · intro n
    exact riskIn_propagate_mono g d n (high_risk_nodes g) g.nodes
  · -- chain node A: depth 0
    rw [hi gChain (7/10) "A" (by decide),
      show high_risk_nodes gChain = ["A"] from by decide]
    simp only [List.foldl_cons, List.foldl_nil]
    rw [show (bfsPairs gChain.edges "A").find? (fun p => p.1 = "A")
        = some ("A", 0) from by decide]
    rw [show risk_score gChain "A" = 0 from by decide,
      show anomaly_score gChain "A" = mkRat 9 10 from by decide,
      show mkRat 9 10 = (9:ℚ)/10 from by norm_num [mkRat, Rat.normalize]]
    norm_num [max_def]
  · -- chain node B: depth 1
    rw [hi gChain (7/10) "B" (by decide),
      show high_risk_nodes gChain = ["A"] from by decide]
    simp only [List.foldl_cons, List.foldl_nil]
    rw [show (bfsPairs gChain.edges "A").find? (fun p => p.1 = "B")
        = some ("B", 1) from by decide]
    rw [show risk_score gChain "B" = 0 from by decide,
      show anomaly_score gChain "A" = mkRat 9 10 from by decide,
      show mkRat 9 10 = (9:ℚ)/10 from by norm_num [mkRat, Rat.normalize]]
    norm_num [max_def]
  · -- chain node C: depth 2
    rw [hi gChain (7/10) "C" (by decide),
      show high_risk_nodes gChain = ["A"] from by decide]
    simp only [List.foldl_cons, List.foldl_nil]
    rw [show (bfsPairs gChain.edges "A").find? (fun p => p.1 = "C")
        = some ("C", 2) from by decide]
    rw [show risk_score gChain "C" = 0 from by decide,
      show anomaly_score gChain "A" = mkRat 9 10 from by decide,
      show mkRat 9 10 = (9:ℚ)/10 from by norm_num [mkRat, Rat.normalize]]
    norm_num [max_def]

/-- Witness for C3 at the concrete chain, discharging the membership
hypothesis of the pointwise characterization. -/
theorem C3_propagate_risk_bfs_decay_witness :
    "C" ∈ gChain.nodes.map Prod.fst ∧
    risk_score (propagate_risk gChain (7/10)) "C"
      = (high_risk_nodes gChain).foldl (fun acc s =>
          match (bfsPairs gChain.edges s).find? (fun p => p.1 = "C") with
          | some p => max acc (anomaly_score gChain s * (7/10 : ℚ) ^ p.2)
          | none => acc) (risk_score gChain "C") :=
  ⟨by decide,
    (C3_propagate_risk_bfs_decay gChain (7/10)).1 "C" (by decide)⟩

end Kaisen

namespace Kaisen

/-- C4 counterexample: with a remote server `R` wired to a high-anomaly
machine `M` but all risk scores still 0 (no propagation yet), the pair is
connected and `[R, M]` is the (unique, maximal-score) candidate path, yet
`find_highest_risk_path` returns the empty sequence, because the fold
starts from score 0.0 and only ever adopts strictly higher scores. -/
theorem C4_counterexample_zero_score_path_dropped :
    find_highest_risk_path gRM = [] ∧
    has_path gRM.edges "R" "M" = true ∧
    "R" ∈ entry_points_final gRM ∧
    "M" ∈ targets_final gRM ∧
    ¬ "R" = "M" ∧
    candidatePaths gRM = [["R", "M"]] ∧
    path_score gRM ["R", "M"] = 0 := by
  have hR : risk_score gRM "R" = 0 := by decide
  have hM : risk_score gRM "M" = 0 := by decide
  have hscore : path_score gRM ["R", "M"] = 0 := by
    simp [path_score, hR, hM]
  refine ⟨?_, by decide, by decide, by decide, by decide, by decide, hscore⟩
  have hcand : candidatePaths gRM = [["R", "M"]] := by decide
  unfold find_highest_risk_path
  rw [hcand, List.foldl_cons, List.foldl_nil]
  norm_num [betterPath, hscore]

/-- C4 (amended): `find_highest_risk_path` folds the best-path update over
all simple paths of at most 10 edges between connected entry/target pairs.
When some candidate has strictly positive total risk, it returns a
candidate of maximal score, preferring fewer nodes on a score tie; when
every candidate scores ≤ 0 — in particular when no pair is connected — it
returns the empty sequence.  The single-edge example (risk 0.9) yields
`[R, M]`, and a 1.1-score tie between a 3-node and a 2-node path yields
the 2-node path. -/
theorem C4_amended_highest_risk_path_argmax (g : Graph) :
    ((∃ p0, p0 ∈ candidatePaths g ∧ 0 < path_score g p0) →
      find_highest_risk_path g ∈ candidatePaths g ∧
      (∀ p ∈ candidatePaths g,
        path_score g p ≤ path_score g (find_highest_risk_path g)) ∧
      (∀ p ∈ candidatePaths g,
        path_score g p = path_score g (find_highest_risk_path g) →
        (find_highest_risk_path g).length ≤ p.length)) ∧
    ((∀ p ∈ candidatePaths g, path_score g p ≤ 0) →
      find_highest_risk_path g = []) ∧
    (candidatePaths g = [] → find_highest_risk_path g = []) ∧
    find_highest_risk_path gRM2 = ["R", "M"] ∧
    find_highest_risk_path gTie = ["R1", "M"] := by
  rcases betterPath_foldl_spec g (candidatePaths g) ([], 0) rfl
    with ⟨c1, c2, c3, c4, c5, c7⟩
  refine ⟨?_, ?_, ?_, ?_, ?_⟩
  · rintro ⟨p0, hp0, hpos⟩
    have hr2pos : 0 < ((candidatePaths g).foldl (betterPath g) ([], 0)).2 :=
      lt_of_lt_of_le hpos (c4 p0 hp0)
    have hmem : find_highest_risk_path g ∈ candidatePaths g := by
      rcases c3 with h | h
      · exfalso
        rw [h] at c1
        simp only [path_score, List.map_nil, List.sum_nil] at c1
        rw [c1] at hr2pos
        exact lt_irrefl 0 hr2pos
      · exact h
    refine ⟨hmem, ?_, ?_⟩
    · intro p hp
      have := c4 p hp
      rw [c1] at this
      exact this
    · intro p hp hpeq
      refine c7 p hp ?_
      rw [c1]
      exact hpeq
  · intro hnp
    rcases c3 with h | h
    · exact h
    · have h1 : ((candidatePaths g).foldl (betterPath g) ([], 0)).2 ≤ 0 := by
        rw [c1]
        exact hnp _ h
      have h2 : (0:ℚ) ≤ ((candidatePaths g).foldl (betterPath g) ([], 0)).2 := c2
      have h3 : ((candidatePaths g).foldl (betterPath g) ([], 0)).2
          = (([], (0:ℚ)) : List String × ℚ).2 := le_antisymm h1 h2
      have h4 := c5 h3
      have h5 : (find_highest_risk_path g).length = 0 := Nat.le_zero.mp h4
      exact List.length_eq_zero.mp h5
  · intro he
    unfold find_highest_risk_path
    rw [he]
    rfl
  · -- single edge, risk 0.9: returns [R, M]
    have hscore : path_score gRM2 ["R", "M"] = (9:ℚ)/10 := by
      simp [path_score, show risk_score gRM2 "R" = 0 from by decide,
        show risk_score gRM2 "M" = mkRat 9 10 from by decide]
      norm_num [mkRat, Rat.normalize]
    have hcand : candidatePaths gRM2 = [["R", "M"]] := by decide
    unfold find_highest_risk_path
    rw [hcand, List.foldl_cons, List.foldl_nil]
    rw [show betterPath gRM2 ([], 0) ["R", "M"] = (["R", "M"], (9:ℚ)/10) from by
      norm_num [betterPath, hscore]]
  · -- 1.1-score tie: the 2-node path wins
    have hs1 : path_score gTie ["R2", "X", "M"] = (11:ℚ)/10 := by
      simp [path_score, show risk_score gTie "R2" = mkRat 1 10 from by decide,
        show risk_score gTie "X" = mkRat 2 10 from by decide,
        show risk_score gTie "M" = mkRat 8 10 from by decide]
      norm_num [mkRat, Rat.normalize]
    have hs2 : path_score gTie ["R1", "M"] = (11:ℚ)/10 := by
      simp [path_score, show risk_score gTie "R1" = mkRat 3 10 from by decide,
        show risk_score gTie "M" = mkRat 8 10 from by decide]
      norm_num [mkRat, Rat.normalize]
    have hcand : candidatePaths gTie = [["R2", "X", "M"], ["R1", "M"]] := by
      decide
    unfold find_highest_risk_path
    rw [hcand]
    simp only [List.foldl_cons, List.foldl_nil]
    rw [show betterPath gTie ([], 0) ["R2", "X", "M"]
        = (["R2", "X", "M"], (11:ℚ)/10) from by norm_num [betterPath, hs1]]
    rw [show betterPath gTie (["R2", "X", "M"], (11:ℚ)/10) ["R1", "M"]
        = (["R1", "M"], (11:ℚ)/10) from by norm_num [betterPath, hs2]]

/-- Witness for C4 (amended) at the tie graph, discharging the
positive-candidate hypothesis. -/
theorem C4_amended_highest_risk_path_argmax_witness :
    (∃ p0, p0 ∈ candidatePaths gTie ∧ 0 < path_score gTie p0) ∧
    (find_highest_risk_path gTie ∈ candidatePaths gTie ∧
      (∀ p ∈ candidatePaths gTie,
        path_score gTie p ≤ path_score gTie (find_highest_risk_path gTie)) ∧
      (∀ p ∈ candidatePaths gTie,
        path_score gTie p = path_score gTie (find_highest_risk_path gTie) →
        (find_highest_risk_path gTie).length ≤ p.length)) := by
  have hs2 : path_score gTie ["R1", "M"] = (11:ℚ)/10 := by
    simp [path_score, show risk_score gTie "R1" = mkRat 3 10 from by decide,
      show risk_score gTie "M" = mkRat 8 10 from by decide]
    norm_num [mkRat, Rat.normalize]
  have hpos : (0:ℚ) < path_score gTie ["R1", "M"] := by
    rw [hs2]; norm_num
  have hmem : ["R1", "M"] ∈ candidatePaths gTie := by decide
  exact ⟨⟨["R1", "M"], hmem, hpos⟩,
    (C4_amended_highest_risk_path_argmax gTie).1 ⟨["R1", "M"], hmem, hpos⟩⟩

end Kaisen

namespace Kaisen

/-- C1: for every behaviour of the pipeline stages (collection, remote
fetch, parsing, validation, scoring, alerting, graph update, persistence),
including any stage raising an error, `collect_once` never propagates an
uncaught fault: it always returns `Except.ok`, yielding either the
processed, validated local snapshot or `none`. -/
theorem C1_collect_once_never_propagates (b : CycleBehaviour) :
    ∃ ro eff, collect_once b = Except.ok (ro, eff) ∧
      (∀ fv, ro = some fv → ∃ raw, b.collectMetrics = Except.ok raw ∧
        b.processData raw = Except.ok fv ∧ b.validate fv = Except.ok true) := by
  unfold collect_once collect_once_body
  cases hcm : b.collectMetrics with
  | error e => exact ⟨none, emptyEffects, rfl, fun fv h => Option.noConfusion h⟩
  | ok raw_data =>
    simp only [collect_once_from_metrics]
    cases hpd : b.processData raw_data with
    | error e => exact ⟨none, emptyEffects, rfl, fun fv h => Option.noConfusion h⟩
    | ok feature_vector =>
      simp only [collect_once_from_processed]
      cases hv : b.validate feature_vector with
      | error e =>
        exact ⟨none, emptyEffects, rfl, fun fv h => Option.noConfusion h⟩
      | ok valid =>
        cases valid with
        | false => exact ⟨none, emptyEffects, rfl, fun fv h => Option.noConfusion h⟩
        | true =>
          refine ⟨some feature_vector, _, rfl, fun fv h => ?_⟩
          injection h with h
          subst h
          exact ⟨raw_data, rfl, hpd, hv⟩

/-- C1 witness: the theorem applied to the concrete healthy cycle. -/
theorem C1_collect_once_never_propagates_witness :
    ∃ ro eff, collect_once bHealthy = Except.ok (ro, eff) ∧
      (∀ fv, ro = some fv → ∃ raw, bHealthy.collectMetrics = Except.ok raw ∧
        bHealthy.processData raw = Except.ok fv ∧
        bHealthy.validate fv = Except.ok true) :=
  C1_collect_once_never_propagates bHealthy

/-- C5 counterexample: a cycle whose remote fetch returns one remote log
but whose local validation returns `False`.  `collect_once` returns `none`
with completely empty effects: the fetched remote snapshot is never scored,
graphed or persisted, refuting the claim that remote snapshots already
fetched are still processed after a local validation failure. -/
theorem C5_counterexample_validation_failure_skips_remote :
    bValidateFalse.remoteConfigured = true ∧
    bValidateFalse.remoteFetch = Except.ok [Except.ok fvRemote] ∧
    (bValidateFalse.validate fvSample = Except.ok false) ∧
    collect_once bValidateFalse = Except.ok (none, emptyEffects) ∧
    emptyEffects.remoteScored = [] ∧ emptyEffects.remoteGraphed = [] ∧
    emptyEffects.remoteSaved = [] ∧ emptyEffects.remoteAlertsSaved = [] :=
  ⟨rfl, rfl, rfl, rfl, rfl, rfl, rfl, rfl⟩

/-- C5 amended: if local snapshot validation fails during a collection
cycle (`validate` returns `False` or raises), `collect_once` returns null
for the cycle immediately, and the remote snapshots already fetched in that
cycle are discarded without being processed: no remote log is scored,
alerted, graphed or persisted. -/
theorem C5_amended_validation_failure_discards_remote (b : CycleBehaviour)
    (raw_data : RawData) (feature_vector : FeatureVector)
    (hcm : b.collectMetrics = Except.ok raw_data)
    (hpd : b.processData raw_data = Except.ok feature_vector)
    (hv : b.validate feature_vector = Except.ok false ∨
      ∃ e, b.validate feature_vector = Except.error e) :
    collect_once b = Except.ok (none, emptyEffects) ∧
    emptyEffects.remoteScored = [] ∧ emptyEffects.remoteGraphed = [] ∧
    emptyEffects.remoteSaved = [] ∧ emptyEffects.remoteAlertsSaved = [] := by
  refine ⟨?_, rfl, rfl, rfl, rfl⟩
  unfold collect_once collect_once_body
  rw [hcm]
  simp only [collect_once_from_metrics]
  rw [hpd]
  simp only [collect_once_from_processed]
  rcases hv with hv | ⟨e, hv⟩
  · rw [hv]; rfl
  · rw [hv]; rfl

/-- C5 amended witness: the theorem applied to the concrete cycle whose
validation returns `False` while one remote log was fetched. -/
theorem C5_amended_validation_failure_discards_remote_witness :
    collect_once bValidateFalse = Except.ok (none, emptyEffects) ∧
    emptyEffects.remoteScored = [] ∧ emptyEffects.remoteGraphed = [] ∧
    emptyEffects.remoteSaved = [] ∧ emptyEffects.remoteAlertsSaved = [] :=
  C5_amended_validation_failure_discards_remote bValidateFalse rawSample
    fvSample rfl rfl (Or.inl rfl)

end Kaisen
